import Mathlib

/-!
Verification of the `CentroidTracker` core of `monitor/main.py`.

The tracker is embedded shallowly:
* Python's insertion-ordered dicts (`objects`, `disappeared`, `object_boxes`)
  become association lists over `Nat` keys, with `setVal` (dict assignment:
  in-place update of an existing key, append of a fresh key) and `eraseKey`
  (dict deletion).
* Bounding-box coordinates are integers; `int((x1 + x2) / 2.0)` is exact
  truncation toward zero for integer pixel coordinates, i.e. `Int.tdiv`.
* `math.dist` is modelled by the squared Euclidean distance over `Int`;
  the square root is strictly monotone, so every comparison the algorithm
  makes (row-minimum sort, per-row argmin) is preserved exactly.
* `np.argsort` on the row minima is modelled as a stable sort by key
  (`List.mergeSort` over the index range). NumPy's default quicksort is
  not stable beyond its insertion-sort threshold, so the relative order
  of tied row minima is a determinization of this model, not a guarantee
  of the code; every property proved below about the matching is
  invariant under the order chosen among tied rows. `np.argmin` is the
  first index attaining the minimum, as NumPy does guarantee.
* Iteration over `set(range(n)).difference(used)` is modelled in
  ascending index order. CPython iterates such a fresh set in hash-slot
  order, which coincides with ascending order only while every element
  is below the hash-table size, so this too is a determinization; it is
  observable only in the order ids are assigned to unused columns, and
  no property proved below depends on that order (the unused-row pass is
  order-independent in its final state).
-/

namespace ICT4GS

/-- A detection bounding box `(x1, y1, x2, y2)` in pixel space. -/
structure Box where
  x1 : Int
  y1 : Int
  x2 : Int
  y2 : Int
deriving DecidableEq, Repr

/-- A 2D centroid point. -/
abbrev Centroid := Int × Int

/-- Centroid of a box: `(int((x1+x2)/2.0), int((y1+y2)/2.0))`, i.e. each
coordinate is the half-sum truncated toward zero. -/
def centroid (b : Box) : Centroid :=
  (Int.tdiv (b.x1 + b.x2) 2, Int.tdiv (b.y1 + b.y2) 2)

/-- Squared Euclidean distance between two centroids; the exact-order model
of `math.dist` used in the distance matrix `D`. -/
def distSq (a b : Centroid) : Int :=
  (a.1 - b.1) ^ 2 + (a.2 - b.2) ^ 2

/-- Dict assignment `d[k] = v`: replace the value at an existing key in
place, or append a fresh key at the end (Python dicts preserve insertion
order). -/
def setVal : List (Nat × α) → Nat → α → List (Nat × α)
  | [], k, v => [(k, v)]
  | (k', v') :: rest, k, v =>
      if k' = k then (k, v) :: rest else (k', v') :: setVal rest k v

/-- Dict deletion `del d[k]`. -/
def eraseKey (l : List (Nat × α)) (k : Nat) : List (Nat × α) :=
  l.filter (fun p => p.1 ≠ k)

/-- The keys of an association list, in iteration order. -/
def keysOf (l : List (Nat × α)) : List Nat :=
  l.map Prod.fst

/-- State of `CentroidTracker`: the three insertion-ordered maps, the next
fresh id, and the `maxDisappeared` threshold. -/
structure CentroidTracker where
  nextObjectID : Nat
  objects : List (Nat × Centroid)
  disappeared : List (Nat × Nat)
  object_boxes : List (Nat × Box)
  maxDisappeared : Nat
deriving DecidableEq, Repr

/-- `CentroidTracker(maxDisappeared)`: fresh tracker with empty maps and
`nextObjectID = 0`. -/
def CentroidTracker.init (m : Nat) : CentroidTracker :=
  ⟨0, [], [], [], m⟩

/-- `register(self, centroid, box)`: store the centroid, a zero disappeared
count and the box under `nextObjectID`, then increment `nextObjectID`. -/
def CentroidTracker.register (t : CentroidTracker) (c : Centroid) (b : Box) :
    CentroidTracker :=
  { t with
    objects := setVal t.objects t.nextObjectID c
    disappeared := setVal t.disappeared t.nextObjectID 0
    object_boxes := setVal t.object_boxes t.nextObjectID b
    nextObjectID := t.nextObjectID + 1 }

/-- `deregister(self, objectID)`: delete the id from all three maps. -/
def CentroidTracker.deregister (t : CentroidTracker) (id : Nat) :
    CentroidTracker :=
  { t with
    objects := eraseKey t.objects id
    disappeared := eraseKey t.disappeared id
    object_boxes := eraseKey t.object_boxes id }

/-- One iteration of the disappearance loop: increment `disappeared[id]`,
then deregister `id` if the new count exceeds `maxDisappeared`. -/
def bumpOne (t : CentroidTracker) (id : Nat) : CentroidTracker :=
  let cnt := (List.lookup id t.disappeared).getD 0 + 1
  let t' := { t with disappeared := setVal t.disappeared id cnt }
  if t.maxDisappeared < cnt then t'.deregister id else t'

/-- The disappearance loop over a snapshot of ids. -/
def bumpAll : List Nat → CentroidTracker → CentroidTracker
  | [], t => t
  | id :: rest, t => bumpAll rest (bumpOne t id)

/-- Register a list of (centroid, box) pairs in order. -/
def registerAll : List (Centroid × Box) → CentroidTracker → CentroidTracker
  | [], t => t
  | cb :: rest, t => registerAll rest (t.register cb.1 cb.2)

/-- Minimum of a list (`D.min(axis=1)` per row; rows are non-empty whenever
the branch is reached). -/
def listMin : List Int → Int
  | [] => 0
  | x :: xs => xs.foldl min x

/-- Helper for `argminList`: scan the remaining entries, keeping the first
index attaining the strictly smallest value seen so far. -/
def argminAux : List Int → Nat → Int → Nat → Nat
  | [], _, _, best => best
  | x :: xs, i, bv, best =>
      if x < bv then argminAux xs (i + 1) x i else argminAux xs (i + 1) bv best

/-- `np.argmin` over a row: the first index attaining the minimum. -/
def argminList : List Int → Nat
  | [] => 0
  | x :: xs => argminAux xs 1 x 0

/-- `np.argsort` over a key array: the indices `0, ..., n-1` sorted by
their key values. Ties are kept in index order (a stable sort); NumPy's
default quicksort does not guarantee this beyond its insertion-sort
threshold, so tie order is a determinization of the model. -/
def argsortKeys (keys : List Int) : List Nat :=
  (List.range keys.length).mergeSort
    (fun i j => decide (keys.getD i 0 ≤ keys.getD j 0))

/-- The distance matrix `D`: one row per existing object centroid, one
column per input centroid. -/
def distMatrix (objectCentroids inputCentroids : List Centroid) :
    List (List Int) :=
  objectCentroids.map fun oc => inputCentroids.map fun ic => distSq oc ic

/-- The candidate pairs `zip(rows, cols)`: rows sorted ascending by their
row minimum, each paired with the argmin over its full row. -/
def matchPairs (D : List (List Int)) : List (Nat × Nat) :=
  (argsortKeys (D.map listMin)).map fun r => (r, argminList (D.getD r []))

/-- The pairs actually consumed by the greedy loop: process candidates in
order, skipping any whose row or column is already used. -/
def greedyPairs : List (Nat × Nat) → List Nat → List Nat → List (Nat × Nat)
  | [], _, _ => []
  | (r, c) :: rest, ur, uc =>
      if r ∈ ur ∨ c ∈ uc then greedyPairs rest ur uc
      else (r, c) :: greedyPairs rest (r :: ur) (c :: uc)

/-- Apply one consumed match `(row, col)`: write the matched detection's
centroid and box to `objectIDs[row]` and reset its disappeared count. -/
def applyOne (objectIDs : List Nat) (inC : List Centroid) (inB : List Box)
    (t : CentroidTracker) (rc : Nat × Nat) : CentroidTracker :=
  let id := objectIDs.getD rc.1 0
  { t with
    objects := setVal t.objects id (inC.getD rc.2 (0, 0))
    object_boxes := setVal t.object_boxes id (inB.getD rc.2 ⟨0, 0, 0, 0⟩)
    disappeared := setVal t.disappeared id 0 }

/-- Apply a list of consumed matches in order. -/
def applyMatches (objectIDs : List Nat) (inC : List Centroid) (inB : List Box)
    : List (Nat × Nat) → CentroidTracker → CentroidTracker
  | [], t => t
  | rc :: rest, t =>
      applyMatches objectIDs inC inB rest (applyOne objectIDs inC inB t rc)

/-- The matching loop of `update`, exactly as written in the source: walk
the candidate pairs, skip used rows/columns, otherwise update the object
and mark the row and column used. Returns `(usedRows, usedCols, tracker)`. -/
def matchLoop (objectIDs : List Nat) (inC : List Centroid) (inB : List Box) :
    List (Nat × Nat) → List Nat → List Nat → CentroidTracker →
    List Nat × List Nat × CentroidTracker
  | [], ur, uc, t => (ur, uc, t)
  | (r, c) :: rest, ur, uc, t =>
      if r ∈ ur ∨ c ∈ uc then matchLoop objectIDs inC inB rest ur uc t
      else
        matchLoop objectIDs inC inB rest (r :: ur) (c :: uc)
          (applyOne objectIDs inC inB t (r, c))

/-- `update(self, detections)`, translated clause by clause from the
source: the empty-detections branch, the no-existing-objects branch, and
the general greedy-matching branch with its unused-row and unused-column
post-processing. -/
def CentroidTracker.update (t : CentroidTracker) (detections : List Box) :
    CentroidTracker :=
  if detections.isEmpty then
    bumpAll (keysOf t.disappeared) t
  else
    let inputCentroids := detections.map centroid
    let inputBoxes := detections
    if t.objects.isEmpty then
      registerAll (inputCentroids.zip inputBoxes) t
    else
      let objectIDs := keysOf t.objects
      let D := distMatrix (t.objects.map Prod.snd) inputCentroids
      let res := matchLoop objectIDs inputCentroids inputBoxes
        (matchPairs D) [] [] t
      let t2 := bumpAll
        (((List.range D.length).filter (fun r => r ∉ res.1)).map
          (fun r => objectIDs.getD r 0)) res.2.2
      registerAll
        (((List.range inputCentroids.length).filter (fun c => c ∉ res.2.1)).map
          (fun c => (inputCentroids.getD c (0, 0), inputBoxes.getD c ⟨0, 0, 0, 0⟩)))
        t2

/-- The distance matrix built by the general branch of `update`: rows
follow the current object iteration order, columns the input order. -/
def CentroidTracker.Dmat (t : CentroidTracker) (dets : List Box) :
    List (List Int) :=
  distMatrix (t.objects.map Prod.snd) (dets.map centroid)

/-- The candidate `(row, col)` pairs of the general branch. -/
def CentroidTracker.candidatePairs (t : CentroidTracker) (dets : List Box) :
    List (Nat × Nat) :=
  matchPairs (t.Dmat dets)

/-- The `(row, col)` pairs actually consumed by the greedy loop. -/
def CentroidTracker.consumedPairs (t : CentroidTracker) (dets : List Box) :
    List (Nat × Nat) :=
  greedyPairs (t.candidatePairs dets) [] []

/-- The unused row indices, in the ascending order this embedding fixes
for the set iteration; the resulting state does not depend on the order. -/
def CentroidTracker.unusedRowList (t : CentroidTracker) (dets : List Box) :
    List Nat :=
  (List.range (t.Dmat dets).length).filter
    (fun r => r ∉ (t.consumedPairs dets).map Prod.fst)

/-- The unused column indices, in the ascending order this embedding
fixes for the set iteration; CPython's actual hash-slot order can differ,
which is observable in the id assignment to unused columns. -/
def CentroidTracker.unusedColList (t : CentroidTracker) (dets : List Box) :
    List Nat :=
  (List.range (dets.map centroid).length).filter
    (fun c => c ∉ (t.consumedPairs dets).map Prod.snd)

/-- Tracker state after the matching loop of the general branch. -/
def CentroidTracker.afterMatch (t : CentroidTracker) (dets : List Box) :
    CentroidTracker :=
  applyMatches (keysOf t.objects) (dets.map centroid) dets
    (t.consumedPairs dets) t

/-- Tracker state after the unused-row post-processing of the general
branch. -/
def CentroidTracker.afterRows (t : CentroidTracker) (dets : List Box) :
    CentroidTracker :=
  bumpAll ((t.unusedRowList dets).map (fun r => (keysOf t.objects).getD r 0))
    (t.afterMatch dets)

/-- The (centroid, box) pairs registered by the unused-column
post-processing, in iteration order. -/
def CentroidTracker.newEntries (t : CentroidTracker) (dets : List Box) :
    List (Centroid × Box) :=
  (t.unusedColList dets).map
    (fun c => ((dets.map centroid).getD c (0, 0), dets.getD c ⟨0, 0, 0, 0⟩))

/-- Number of registrations performed by one `update` call, computed from
the same matching data the call itself uses. -/
def CentroidTracker.regCount (t : CentroidTracker) (detections : List Box) :
    Nat :=
  if detections.isEmpty then 0
  else if t.objects.isEmpty then detections.length
  else (t.unusedColList detections).length

/-- Total number of registrations along a run of per-frame updates. -/
def traceRegCount (t : CentroidTracker) : List (List Box) → Nat
  | [] => 0
  | d :: ds => t.regCount d + traceRegCount (t.update d) ds

/-- The sequence of returned `{id: box}` mappings along a run. -/
def traceBoxes (t : CentroidTracker) : List (List Box) → List (List (Nat × Box))
  | [] => []
  | d :: ds => (t.update d).object_boxes :: traceBoxes (t.update d) ds

/-- Modelled from the spec: the half of an integer truncated toward zero,
the centroid-coordinate rule stated in the data model section. Used only
to compare the code's `centroid` against the spec's wording. -/
def truncHalfTowardZero (n : Int) : Int :=
  if 0 ≤ n then ((n.toNat / 2 : Nat) : Int) else -(((-n).toNat / 2 : Nat) : Int)

/-- Run a sequence of per-frame detection lists through the tracker. -/
def runUpdates (t : CentroidTracker) : List (List Box) → CentroidTracker
  | [] => t
  | d :: ds => runUpdates (t.update d) ds

/-- The content of the general matching case of `update`, stated over the
matching data (`Dmat`, `candidatePairs`, `consumedPairs`) and the final
tracker state: the full distance matrix, the row ordering by row minimum,
the per-row full-row argmin columns, the greedy consumption discipline,
and the effect of each consumed pair on the matched object. -/
def generalMatchSpec (t : CentroidTracker) (dets : List Box) : Prop :=
  (t.Dmat dets).length = t.objects.length ∧
  (∀ row ∈ t.Dmat dets, row.length = dets.length) ∧
  (∀ i, i < t.objects.length → ∀ j, j < dets.length →
    ((t.Dmat dets).getD i []).getD j 0 =
      distSq ((t.objects.map Prod.snd).getD i (0, 0))
        ((dets.map centroid).getD j (0, 0))) ∧
  ((t.candidatePairs dets).map Prod.fst).Perm
    (List.range (t.Dmat dets).length) ∧
  ((t.candidatePairs dets).map Prod.fst).Pairwise
    (fun r s => listMin ((t.Dmat dets).getD r []) ≤
      listMin ((t.Dmat dets).getD s [])) ∧
  (∀ p ∈ t.candidatePairs dets,
    p.2 = argminList ((t.Dmat dets).getD p.1 []) ∧
    p.2 < dets.length ∧
    ((t.Dmat dets).getD p.1 []).getD p.2 0 =
      listMin ((t.Dmat dets).getD p.1 [])) ∧
  (t.consumedPairs dets).Sublist (t.candidatePairs dets) ∧
  ((t.consumedPairs dets).map Prod.fst).Nodup ∧
  ((t.consumedPairs dets).map Prod.snd).Nodup ∧
  (∀ p ∈ t.candidatePairs dets, p ∈ t.consumedPairs dets ∨
    p.1 ∈ (t.consumedPairs dets).map Prod.fst ∨
    p.2 ∈ (t.consumedPairs dets).map Prod.snd) ∧
  (∀ p ∈ t.consumedPairs dets,
    List.lookup ((keysOf t.objects).getD p.1 0) (t.update dets).objects =
      some ((dets.map centroid).getD p.2 (0, 0)) ∧
    List.lookup ((keysOf t.objects).getD p.1 0) (t.update dets).object_boxes =
      some (dets.getD p.2 ⟨0, 0, 0, 0⟩) ∧
    List.lookup ((keysOf t.objects).getD p.1 0) (t.update dets).disappeared =
      some 0)

/-- The content of the empty-detections case of `update`: no change to
`nextObjectID`, no new ids, every object's count incremented, survivors
keep their boxes, and exactly the objects whose new count exceeds
`maxDisappeared` are removed from every map. -/
def emptyUpdateSpec (t : CentroidTracker) : Prop :=
  (t.update []).nextObjectID = t.nextObjectID ∧
  (∀ id ∈ keysOf (t.update []).objects, id ∈ keysOf t.objects) ∧
  ∀ id c, List.lookup id t.disappeared = some c →
    (t.maxDisappeared < c + 1 →
      id ∉ keysOf (t.update []).objects ∧
      id ∉ keysOf (t.update []).disappeared ∧
      id ∉ keysOf (t.update []).object_boxes) ∧
    (c + 1 ≤ t.maxDisappeared →
      List.lookup id (t.update []).disappeared = some (c + 1) ∧
      List.lookup id (t.update []).object_boxes =
        List.lookup id t.object_boxes ∧
      id ∈ keysOf (t.update []).objects)

/-- Every stored disappearance count is at most `maxDisappeared`. -/
def boundedCounts (t : CentroidTracker) : Prop :=
  ∀ p ∈ t.disappeared, p.2 ≤ t.maxDisappeared

instance (t : CentroidTracker) : Decidable (boundedCounts t) := by
  unfold boundedCounts
  infer_instance

/-- Sample detection boxes for concrete witnesses. -/
def boxA : Box := ⟨0, 0, 2, 2⟩

/-- A second sample box, far from `boxA`. -/
def boxB : Box := ⟨100, 100, 102, 102⟩

/-- `boxA` shifted by one pixel. -/
def boxA2 : Box := ⟨1, 1, 3, 3⟩

/-- `boxB` shifted by one pixel. -/
def boxB2 : Box := ⟨101, 101, 103, 103⟩

/-- A tracker holding two well-separated objects. -/
def twoObjTracker : CentroidTracker :=
  (CentroidTracker.init 30).update [boxA, boxB]

/-- A tracker with one object and `maxDisappeared = 1`, as in the spec's
concrete scenario. -/
def oneObjTracker : CentroidTracker :=
  (CentroidTracker.init 1).update [⟨0, 0, 10, 10⟩]

/-- The tracker of the concrete scenario after its object is lost. -/
def lostTracker : CentroidTracker :=
  (oneObjTracker.update []).update []

/-- Well-formedness of a tracker state: the object keys are distinct, the
three maps carry the same key sequence, and every key is below
`nextObjectID`. Every state reachable from `init` satisfies this. -/
def CentroidTracker.WF (t : CentroidTracker) : Prop :=
  (keysOf t.objects).Nodup ∧
  keysOf t.disappeared = keysOf t.objects ∧
  keysOf t.object_boxes = keysOf t.objects ∧
  ∀ id ∈ keysOf t.objects, id < t.nextObjectID

instance (t : CentroidTracker) : Decidable t.WF := by
  unfold CentroidTracker.WF
  infer_instance

/-- The key sequences of `disappeared` and `object_boxes` agree with that of
`objects`; the key-set part of well-formedness. -/
def CentroidTracker.Synced (t : CentroidTracker) : Prop :=
  keysOf t.disappeared = keysOf t.objects ∧
  keysOf t.object_boxes = keysOf t.objects

/-! ### Association-list lemmas -/

@[simp] theorem keysOf_nil : keysOf ([] : List (Nat × α)) = [] := rfl

@[simp] theorem keysOf_cons (p : Nat × α) (l : List (Nat × α)) :
    keysOf (p :: l) = p.1 :: keysOf l := rfl

@[simp] theorem keysOf_append (l l' : List (Nat × α)) :
    keysOf (l ++ l') = keysOf l ++ keysOf l' :=
  List.map_append _ _ _

theorem lookup_cons (id k : Nat) (v : α) (l : List (Nat × α)) :
    List.lookup id ((k, v) :: l) = if id = k then some v else List.lookup id l := by
  by_cases h : id = k
  · simp [List.lookup, h]
  · have hb : (id == k) = false := beq_eq_false_iff_ne.mpr h
    simp [List.lookup, hb, h]

theorem keysOf_setVal_of_mem {l : List (Nat × α)} {k : Nat} (v : α)
    (h : k ∈ keysOf l) : keysOf (setVal l k v) = keysOf l := by
  induction l with
  | nil => simp at h
  | cons p rest ih =>
      cases p with
      | mk k' v' =>
        by_cases hk : k' = k
        · simp [setVal, hk]
        · simp only [keysOf_cons, List.mem_cons] at h
          rcases h with h | h
          · exact absurd h.symm hk
          · simp [setVal, hk, ih h]

theorem keysOf_setVal_of_not_mem {l : List (Nat × α)} {k : Nat} (v : α)
    (h : k ∉ keysOf l) : keysOf (setVal l k v) = keysOf l ++ [k] := by
  induction l with
  | nil => simp [setVal]
  | cons p rest ih =>
      cases p with
      | mk k' v' =>
        simp only [keysOf_cons, List.mem_cons, not_or] at h
        simp [setVal, Ne.symm h.1, ih h.2]

theorem lookup_setVal_self (l : List (Nat × α)) (k : Nat) (v : α) :
    List.lookup k (setVal l k v) = some v := by
  induction l with
  | nil => simp [setVal, lookup_cons]
  | cons p rest ih =>
      cases p with
      | mk k' v' =>
        by_cases hk : k' = k
        · simp [setVal, hk, lookup_cons]
        · simp [setVal, hk, lookup_cons, Ne.symm hk, ih]

theorem lookup_setVal_ne {id k : Nat} (l : List (Nat × α)) (v : α)
    (h : id ≠ k) : List.lookup id (setVal l k v) = List.lookup id l := by
  induction l with
  | nil => simp [setVal, lookup_cons, h]
  | cons p rest ih =>
      cases p with
      | mk k' v' =>
        by_cases hk : k' = k
        · subst hk; simp [setVal, lookup_cons, h]
        · simp [setVal, hk, lookup_cons, ih]

theorem keysOf_eraseKey (l : List (Nat × α)) (k : Nat) :
    keysOf (eraseKey l k) = (keysOf l).filter (fun x => x ≠ k) := by
  induction l with
  | nil => simp [eraseKey]
  | cons p rest ih =>
      cases p with
      | mk k' v' =>
        by_cases hk : k' = k
        · simp [eraseKey, hk] at ih ⊢; exact ih
        · simp [eraseKey, hk] at ih ⊢; exact ih

theorem lookup_eraseKey_self (l : List (Nat × α)) (k : Nat) :
    List.lookup k (eraseKey l k) = none := by
  induction l with
  | nil => simp [eraseKey]
  | cons p rest ih =>
      cases p with
      | mk k' v' =>
        by_cases hk : k' = k
        · simpa [eraseKey, hk] using ih
        · simpa [eraseKey, hk, Ne.symm hk] using ih

theorem lookup_eraseKey_ne {id k : Nat} (l : List (Nat × α))
    (h : id ≠ k) : List.lookup id (eraseKey l k) = List.lookup id l := by
  induction l with
  | nil => simp [eraseKey]
  | cons p rest ih =>
      cases p with
      | mk k' v' =>
        by_cases hk : k' = k
        · subst hk
          simpa [eraseKey, lookup_cons, h] using ih
        · by_cases hik : id = k'
          · simp [eraseKey, hk, lookup_cons, hik]
          · simpa [eraseKey, hk, lookup_cons, hik] using ih

theorem mem_keysOf_of_lookup {l : List (Nat × α)} {id : Nat} {v : α}
    (h : List.lookup id l = some v) : id ∈ keysOf l := by
  induction l with
  | nil => simp at h
  | cons p rest ih =>
      cases p with
      | mk k' v' =>
        by_cases hik : id = k'
        · simp [hik]
        · rw [lookup_cons, if_neg hik] at h
          simp [hik, ih h]

theorem lookup_eq_none_of_not_mem {l : List (Nat × α)} {id : Nat}
    (h : id ∉ keysOf l) : List.lookup id l = none := by
  cases hl : List.lookup id l with
  | none => rfl
  | some v => exact absurd (mem_keysOf_of_lookup hl) h

theorem lookup_isSome_of_mem {l : List (Nat × α)} {id : Nat}
    (h : id ∈ keysOf l) : ∃ v, List.lookup id l = some v := by
  induction l with
  | nil => simp at h
  | cons p rest ih =>
      cases p with
      | mk k' v' =>
        by_cases hik : id = k'
        · exact ⟨v', by simp [lookup_cons, hik]⟩
        · simp only [keysOf_cons, List.mem_cons] at h
          rcases h with h | h
          · exact absurd h hik
          · obtain ⟨v, hv⟩ := ih h
            exact ⟨v, by simp [lookup_cons, hik, hv]⟩

theorem mem_keysOf_setVal_iff {l : List (Nat × α)} {id k : Nat} (v : α)
    (h : id ≠ k) : id ∈ keysOf (setVal l k v) ↔ id ∈ keysOf l := by
  by_cases hk : k ∈ keysOf l
  · rw [keysOf_setVal_of_mem v hk]
  · rw [keysOf_setVal_of_not_mem v hk]
    simp [h]

theorem mem_keysOf_eraseKey_iff {l : List (Nat × α)} {id k : Nat}
    (h : id ≠ k) : id ∈ keysOf (eraseKey l k) ↔ id ∈ keysOf l := by
  rw [keysOf_eraseKey]
  simp [List.mem_filter, h]

theorem not_mem_keysOf_eraseKey (l : List (Nat × α)) (k : Nat) :
    k ∉ keysOf (eraseKey l k) := by
  rw [keysOf_eraseKey]
  simp [List.mem_filter]

/-! ### Lemmas about the disappearance loop -/

theorem bumpOne_nextObjectID (t : CentroidTracker) (i : Nat) :
    (bumpOne t i).nextObjectID = t.nextObjectID := by
  rw [bumpOne]
  split <;> rfl

theorem bumpOne_maxDisappeared (t : CentroidTracker) (i : Nat) :
    (bumpOne t i).maxDisappeared = t.maxDisappeared := by
  rw [bumpOne]
  split <;> rfl

theorem bumpOne_objects (t : CentroidTracker) (i : Nat) :
    (bumpOne t i).objects =
      if t.maxDisappeared < (List.lookup i t.disappeared).getD 0 + 1 then
        eraseKey t.objects i
      else t.objects := by
  rw [bumpOne]
  split <;> rfl

theorem bumpOne_object_boxes (t : CentroidTracker) (i : Nat) :
    (bumpOne t i).object_boxes =
      if t.maxDisappeared < (List.lookup i t.disappeared).getD 0 + 1 then
        eraseKey t.object_boxes i
      else t.object_boxes := by
  rw [bumpOne]
  split <;> rfl

theorem bumpOne_disappeared (t : CentroidTracker) (i : Nat) :
    (bumpOne t i).disappeared =
      if t.maxDisappeared < (List.lookup i t.disappeared).getD 0 + 1 then
        eraseKey (setVal t.disappeared i ((List.lookup i t.disappeared).getD 0 + 1)) i
      else setVal t.disappeared i ((List.lookup i t.disappeared).getD 0 + 1) := by
  rw [bumpOne]
  split <;> rfl

theorem bumpOne_frame {id i : Nat} (t : CentroidTracker) (h : id ≠ i) :
    List.lookup id (bumpOne t i).objects = List.lookup id t.objects ∧
    List.lookup id (bumpOne t i).object_boxes = List.lookup id t.object_boxes ∧
    List.lookup id (bumpOne t i).disappeared = List.lookup id t.disappeared ∧
    (id ∈ keysOf (bumpOne t i).objects ↔ id ∈ keysOf t.objects) ∧
    (id ∈ keysOf (bumpOne t i).object_boxes ↔ id ∈ keysOf t.object_boxes) ∧
    (id ∈ keysOf (bumpOne t i).disappeared ↔ id ∈ keysOf t.disappeared) := by
  rw [bumpOne_objects, bumpOne_object_boxes, bumpOne_disappeared]
  split
  · refine ⟨lookup_eraseKey_ne _ h, lookup_eraseKey_ne _ h, ?_, ?_, ?_, ?_⟩
    · rw [lookup_eraseKey_ne _ h, lookup_setVal_ne _ _ h]
    · exact mem_keysOf_eraseKey_iff h
    · exact mem_keysOf_eraseKey_iff h
    · rw [mem_keysOf_eraseKey_iff h, mem_keysOf_setVal_iff _ h]
  · exact ⟨rfl, rfl, lookup_setVal_ne _ _ h, Iff.rfl, Iff.rfl,
      mem_keysOf_setVal_iff _ h⟩

theorem bumpOne_gone {t : CentroidTracker} {i c : Nat}
    (hc : List.lookup i t.disappeared = some c)
    (hgt : t.maxDisappeared < c + 1) :
    i ∉ keysOf (bumpOne t i).objects ∧
    i ∉ keysOf (bumpOne t i).disappeared ∧
    i ∉ keysOf (bumpOne t i).object_boxes := by
  rw [bumpOne_objects, bumpOne_object_boxes, bumpOne_disappeared]
  simp only [hc, Option.getD_some]
  rw [if_pos hgt, if_pos hgt, if_pos hgt]
  exact ⟨not_mem_keysOf_eraseKey _ _, not_mem_keysOf_eraseKey _ _,
    not_mem_keysOf_eraseKey _ _⟩

theorem bumpOne_survive {t : CentroidTracker} {i c : Nat}
    (hc : List.lookup i t.disappeared = some c)
    (hle : c + 1 ≤ t.maxDisappeared) :
    List.lookup i (bumpOne t i).disappeared = some (c + 1) ∧
    (bumpOne t i).objects = t.objects ∧
    (bumpOne t i).object_boxes = t.object_boxes ∧
    i ∈ keysOf (bumpOne t i).disappeared := by
  rw [bumpOne_objects, bumpOne_object_boxes, bumpOne_disappeared]
  simp only [hc, Option.getD_some]
  rw [if_neg (Nat.not_lt.mpr hle), if_neg (Nat.not_lt.mpr hle),
    if_neg (Nat.not_lt.mpr hle)]
  refine ⟨lookup_setVal_self _ _ _, rfl, rfl, ?_⟩
  exact mem_keysOf_of_lookup (lookup_setVal_self t.disappeared i (c + 1))

theorem bumpOne_lookup_le {t : CentroidTracker} {i id c : Nat}
    (h : List.lookup id (bumpOne t i).disappeared = some c) :
    c ≤ t.maxDisappeared ∨ List.lookup id t.disappeared = some c := by
  by_cases hid : id = i
  · subst hid
    rw [bumpOne_disappeared] at h
    split at h
    · rw [lookup_eraseKey_self] at h
      exact absurd h (by simp)
    · rw [lookup_setVal_self] at h
      cases h
      left
      omega
  · right
    rw [← (bumpOne_frame t hid).2.2.1]
    exact h

theorem bumpAll_nextObjectID : ∀ (ids : List Nat) (t : CentroidTracker),
    (bumpAll ids t).nextObjectID = t.nextObjectID
  | [], _ => rfl
  | i :: rest, t => by
      rw [bumpAll, bumpAll_nextObjectID rest, bumpOne_nextObjectID]

theorem bumpAll_maxDisappeared : ∀ (ids : List Nat) (t : CentroidTracker),
    (bumpAll ids t).maxDisappeared = t.maxDisappeared
  | [], _ => rfl
  | i :: rest, t => by
      rw [bumpAll, bumpAll_maxDisappeared rest, bumpOne_maxDisappeared]

theorem bumpAll_frame {id : Nat} : ∀ {ids : List Nat} (t : CentroidTracker),
    id ∉ ids →
    List.lookup id (bumpAll ids t).objects = List.lookup id t.objects ∧
    List.lookup id (bumpAll ids t).object_boxes = List.lookup id t.object_boxes ∧
    List.lookup id (bumpAll ids t).disappeared = List.lookup id t.disappeared ∧
    (id ∈ keysOf (bumpAll ids t).objects ↔ id ∈ keysOf t.objects) ∧
    (id ∈ keysOf (bumpAll ids t).object_boxes ↔ id ∈ keysOf t.object_boxes) ∧
    (id ∈ keysOf (bumpAll ids t).disappeared ↔ id ∈ keysOf t.disappeared)
  | [], t, _ => ⟨rfl, rfl, rfl, Iff.rfl, Iff.rfl, Iff.rfl⟩
  | i :: rest, t, h => by
      have h1 : id ≠ i := fun he => h (he ▸ List.mem_cons_self i rest)
      have h2 : id ∉ rest := fun he => h (List.mem_cons_of_mem i he)
      obtain ⟨a1, a2, a3, a4, a5, a6⟩ := bumpOne_frame t h1
      obtain ⟨b1, b2, b3, b4, b5, b6⟩ := bumpAll_frame (bumpOne t i) h2
      exact ⟨b1.trans a1, b2.trans a2, b3.trans a3, b4.trans a4,
        b5.trans a5, b6.trans a6⟩

theorem bumpAll_gone {i c : Nat} : ∀ {ids : List Nat} (t : CentroidTracker),
    ids.Nodup → i ∈ ids →
    List.lookup i t.disappeared = some c → t.maxDisappeared < c + 1 →
    i ∉ keysOf (bumpAll ids t).objects ∧
    i ∉ keysOf (bumpAll ids t).disappeared ∧
    i ∉ keysOf (bumpAll ids t).object_boxes
  | [], _, _, hmem, _, _ => absurd hmem (List.not_mem_nil i)
  | j :: rest, t, hnd, hmem, hc, hgt => by
      rw [bumpAll]
      by_cases hij : i = j
      · subst hij
        obtain ⟨g1, g2, g3⟩ := bumpOne_gone hc hgt
        have hrest : i ∉ rest := (List.nodup_cons.mp hnd).1
        obtain ⟨-, -, -, f4, f5, f6⟩ := bumpAll_frame (bumpOne t i) hrest
        exact ⟨fun hm => g1 (f4.mp hm), fun hm => g2 (f6.mp hm),
          fun hm => g3 (f5.mp hm)⟩
      · have hmem' : i ∈ rest := (List.mem_cons.mp hmem).resolve_left hij
        obtain ⟨-, -, a3, -, -, -⟩ := bumpOne_frame t hij
        exact bumpAll_gone (bumpOne t j) (List.nodup_cons.mp hnd).2 hmem'
          (a3.trans hc) (by rwa [bumpOne_maxDisappeared])

theorem bumpAll_survive {i c : Nat} : ∀ {ids : List Nat} (t : CentroidTracker),
    ids.Nodup → i ∈ ids →
    List.lookup i t.disappeared = some c → c + 1 ≤ t.maxDisappeared →
    List.lookup i (bumpAll ids t).disappeared = some (c + 1) ∧
    List.lookup i (bumpAll ids t).objects = List.lookup i t.objects ∧
    List.lookup i (bumpAll ids t).object_boxes = List.lookup i t.object_boxes ∧
    (i ∈ keysOf (bumpAll ids t).objects ↔ i ∈ keysOf t.objects) ∧
    i ∈ keysOf (bumpAll ids t).disappeared ∧
    (i ∈ keysOf (bumpAll ids t).object_boxes ↔ i ∈ keysOf t.object_boxes)
  | [], _, _, hmem, _, _ => absurd hmem (List.not_mem_nil i)
  | j :: rest, t, hnd, hmem, hc, hle => by
      rw [bumpAll]
      by_cases hij : i = j
      · subst hij
        obtain ⟨s1, s2, s3, s4⟩ := bumpOne_survive hc hle
        have hrest : i ∉ rest := (List.nodup_cons.mp hnd).1
        obtain ⟨f1, f2, f3, f4, f5, f6⟩ := bumpAll_frame (bumpOne t i) hrest
        refine ⟨f3.trans s1, ?_, ?_, ?_, f6.mpr s4, ?_⟩
        · rw [f1, s2]
        · rw [f2, s3]
        · rw [f4, s2]
        · rw [f5, s3]
      · have hmem' : i ∈ rest := (List.mem_cons.mp hmem).resolve_left hij
        obtain ⟨a1, a2, a3, a4, a5, a6⟩ := bumpOne_frame t hij
        have hres := bumpAll_survive (bumpOne t j) (List.nodup_cons.mp hnd).2
          hmem' (a3.trans hc) (by rwa [bumpOne_maxDisappeared])
        obtain ⟨r1, r2, r3, r4, r5, r6⟩ := hres
        exact ⟨r1, r2.trans a1, r3.trans a2, r4.trans a4, r5, r6.trans a5⟩

theorem bumpOne_objects_keys_subset (t : CentroidTracker) (i : Nat) :
    keysOf (bumpOne t i).objects ⊆ keysOf t.objects := by
  rw [bumpOne_objects]
  split
  · rw [keysOf_eraseKey]
    exact fun x hx => List.mem_of_mem_filter hx
  · exact fun _ h => h

theorem bumpAll_objects_keys_subset : ∀ (ids : List Nat) (t : CentroidTracker),
    keysOf (bumpAll ids t).objects ⊆ keysOf t.objects
  | [], _ => fun _ h => h
  | i :: rest, t => fun _x hx =>
      bumpOne_objects_keys_subset t i
        (bumpAll_objects_keys_subset rest (bumpOne t i) hx)

theorem bumpAll_lookup_le : ∀ (ids : List Nat) (t : CentroidTracker)
    {id c : Nat}, List.lookup id (bumpAll ids t).disappeared = some c →
    c ≤ t.maxDisappeared ∨ List.lookup id t.disappeared = some c
  | [], _, _, _, h => Or.inr h
  | i :: rest, t, id, c, h => by
      rcases bumpAll_lookup_le rest (bumpOne t i) h with h' | h'
      · rw [bumpOne_maxDisappeared] at h'
        exact Or.inl h'
      · exact bumpOne_lookup_le h'

theorem WF_bumpOne {t : CentroidTracker} {i : Nat} (hwf : t.WF)
    (hmem : i ∈ keysOf t.objects) : (bumpOne t i).WF := by
  obtain ⟨hnd, hd, hb, hlt⟩ := hwf
  have hmemd : i ∈ keysOf t.disappeared := by rw [hd]; exact hmem
  refine ⟨?_, ?_, ?_, ?_⟩
  · rw [bumpOne_objects]
    split
    · rw [keysOf_eraseKey]
      exact hnd.filter _
    · exact hnd
  · rw [bumpOne_objects, bumpOne_disappeared]
    split
    · rw [keysOf_eraseKey, keysOf_eraseKey, keysOf_setVal_of_mem _ hmemd, hd]
    · rw [keysOf_setVal_of_mem _ hmemd, hd]
  · rw [bumpOne_objects, bumpOne_object_boxes]
    split
    · rw [keysOf_eraseKey, keysOf_eraseKey, hb]
    · exact hb
  · intro id hid
    rw [bumpOne_nextObjectID]
    rw [bumpOne_objects] at hid
    refine hlt id ?_
    revert hid
    split
    · rw [keysOf_eraseKey]
      exact fun hid => List.mem_of_mem_filter hid
    · exact fun hid => hid

theorem WF_bumpAll : ∀ {ids : List Nat} {t : CentroidTracker}, t.WF →
    ids.Nodup → (∀ i ∈ ids, i ∈ keysOf t.objects) → (bumpAll ids t).WF
  | [], _, hwf, _, _ => hwf
  | j :: rest, t, hwf, hnd, hin => by
      rw [bumpAll]
      refine WF_bumpAll (WF_bumpOne hwf (hin j (List.mem_cons_self j rest)))
        (List.nodup_cons.mp hnd).2 ?_
      intro i hi
      have hij : i ≠ j := fun he => (List.nodup_cons.mp hnd).1 (he ▸ hi)
      exact (bumpOne_frame t hij).2.2.2.1.mpr (hin i (List.mem_cons_of_mem j hi))

/-! ### Lemmas about registration -/

theorem setVal_append {l : List (Nat × α)} {k : Nat} (v : α)
    (h : k ∉ keysOf l) : setVal l k v = l ++ [(k, v)] := by
  induction l with
  | nil => rfl
  | cons p rest ih =>
      cases p with
      | mk k' v' =>
        simp only [keysOf_cons, List.mem_cons, not_or] at h
        simp [setVal, Ne.symm h.1, ih h.2]

theorem register_nextObjectID (t : CentroidTracker) (c : Centroid) (b : Box) :
    (t.register c b).nextObjectID = t.nextObjectID + 1 := rfl

theorem register_maxDisappeared (t : CentroidTracker) (c : Centroid) (b : Box) :
    (t.register c b).maxDisappeared = t.maxDisappeared := rfl

theorem registerAll_nextObjectID : ∀ (ps : List (Centroid × Box))
    (t : CentroidTracker),
    (registerAll ps t).nextObjectID = t.nextObjectID + ps.length
  | [], _ => rfl
  | cb :: rest, t => by
      rw [registerAll, registerAll_nextObjectID rest, register_nextObjectID]
      simp only [List.length_cons]
      omega

theorem registerAll_maxDisappeared : ∀ (ps : List (Centroid × Box))
    (t : CentroidTracker),
    (registerAll ps t).maxDisappeared = t.maxDisappeared
  | [], _ => rfl
  | cb :: rest, t => by
      rw [registerAll, registerAll_maxDisappeared rest, register_maxDisappeared]

theorem not_mem_keysOf_of_lt {l : List (Nat × α)} {n : Nat}
    (h : ∀ id ∈ keysOf l, id < n) : n ∉ keysOf l :=
  fun hmem => absurd (h n hmem) (Nat.lt_irrefl n)

theorem WF_register {t : CentroidTracker} (hwf : t.WF) (c : Centroid) (b : Box) :
    (t.register c b).WF ∧
    (t.register c b).objects = t.objects ++ [(t.nextObjectID, c)] ∧
    (t.register c b).disappeared = t.disappeared ++ [(t.nextObjectID, 0)] ∧
    (t.register c b).object_boxes = t.object_boxes ++ [(t.nextObjectID, b)] := by
  obtain ⟨hnd, hd, hb, hlt⟩ := hwf
  have hno : t.nextObjectID ∉ keysOf t.objects := not_mem_keysOf_of_lt hlt
  have hnd' : t.nextObjectID ∉ keysOf t.disappeared := by rw [hd]; exact hno
  have hnb : t.nextObjectID ∉ keysOf t.object_boxes := by rw [hb]; exact hno
  have e1 : (t.register c b).objects = t.objects ++ [(t.nextObjectID, c)] :=
    setVal_append c hno
  have e2 : (t.register c b).disappeared = t.disappeared ++ [(t.nextObjectID, 0)] :=
    setVal_append 0 hnd'
  have e3 : (t.register c b).object_boxes = t.object_boxes ++ [(t.nextObjectID, b)] :=
    setVal_append b hnb
  refine ⟨⟨?_, ?_, ?_, ?_⟩, e1, e2, e3⟩
  · rw [e1, keysOf_append]
    refine List.Nodup.append hnd (by simp) ?_
    intro x hx hx'
    simp only [keysOf_cons, keysOf_nil, List.mem_singleton] at hx'
    subst hx'
    exact hno hx
  · rw [e1, e2, keysOf_append, keysOf_append, hd]
    simp [keysOf]
  · rw [e1, e3, keysOf_append, keysOf_append, hb]
    simp [keysOf]
  · intro id hid
    rw [e1, keysOf_append] at hid
    rw [register_nextObjectID]
    rcases List.mem_append.mp hid with h | h
    · exact Nat.lt_succ_of_lt (hlt id h)
    · simp only [keysOf_cons, keysOf_nil, List.mem_singleton] at h
      omega

theorem registerAll_closed : ∀ (ps : List (Centroid × Box))
    (t : CentroidTracker), t.WF →
    (registerAll ps t).WF ∧
    (registerAll ps t).objects =
      t.objects ++ List.enumFrom t.nextObjectID (ps.map Prod.fst) ∧
    (registerAll ps t).object_boxes =
      t.object_boxes ++ List.enumFrom t.nextObjectID (ps.map Prod.snd) ∧
    (registerAll ps t).disappeared =
      t.disappeared ++ (List.range' t.nextObjectID ps.length).map (fun id => (id, 0))
  | [], t, hwf => by
      refine ⟨hwf, ?_, ?_, ?_⟩ <;> simp [registerAll]
  | (c, b) :: rest, t, hwf => by
      obtain ⟨hwf', e1, e2, e3⟩ := WF_register hwf c b
      obtain ⟨ih0, ih1, ih2, ih3⟩ := registerAll_closed rest (t.register c b) hwf'
      refine ⟨ih0, ?_, ?_, ?_⟩
      · rw [registerAll, ih1, e1, register_nextObjectID, List.append_assoc]
        rfl
      · rw [registerAll, ih2, e3, register_nextObjectID, List.append_assoc]
        rfl
      · rw [registerAll, ih3, e2, register_nextObjectID, List.append_assoc]
        rfl

theorem registerAll_lookup_le : ∀ (ps : List (Centroid × Box))
    (t : CentroidTracker) {id c : Nat},
    List.lookup id (registerAll ps t).disappeared = some c →
    c = 0 ∨ List.lookup id t.disappeared = some c
  | [], _, _, _, h => Or.inr h
  | cb :: rest, t, id, c, h => by
      rcases registerAll_lookup_le rest (t.register cb.1 cb.2) h with h' | h'
      · exact Or.inl h'
      · by_cases hid : id = t.nextObjectID
        · subst hid
          rw [show (t.register cb.1 cb.2).disappeared =
              setVal t.disappeared t.nextObjectID 0 from rfl,
            lookup_setVal_self] at h'
          cases h'
          exact Or.inl rfl
        · rw [show (t.register cb.1 cb.2).disappeared =
              setVal t.disappeared t.nextObjectID 0 from rfl,
            lookup_setVal_ne _ _ hid] at h'
          exact Or.inr h'

/-! ### Lemmas about the matching loop -/

theorem applyOne_objects (objectIDs : List Nat) (inC : List Centroid)
    (inB : List Box) (t : CentroidTracker) (rc : Nat × Nat) :
    (applyOne objectIDs inC inB t rc).objects =
      setVal t.objects (objectIDs.getD rc.1 0) (inC.getD rc.2 (0, 0)) := rfl

theorem applyOne_object_boxes (objectIDs : List Nat) (inC : List Centroid)
    (inB : List Box) (t : CentroidTracker) (rc : Nat × Nat) :
    (applyOne objectIDs inC inB t rc).object_boxes =
      setVal t.object_boxes (objectIDs.getD rc.1 0) (inB.getD rc.2 ⟨0, 0, 0, 0⟩) := rfl

theorem applyOne_disappeared (objectIDs : List Nat) (inC : List Centroid)
    (inB : List Box) (t : CentroidTracker) (rc : Nat × Nat) :
    (applyOne objectIDs inC inB t rc).disappeared =
      setVal t.disappeared (objectIDs.getD rc.1 0) 0 := rfl

theorem applyMatches_nextObjectID (objectIDs : List Nat) (inC : List Centroid)
    (inB : List Box) : ∀ (M : List (Nat × Nat)) (t : CentroidTracker),
    (applyMatches objectIDs inC inB M t).nextObjectID = t.nextObjectID
  | [], _ => rfl
  | _rc :: rest, _t => applyMatches_nextObjectID objectIDs inC inB rest _

theorem applyMatches_maxDisappeared (objectIDs : List Nat) (inC : List Centroid)
    (inB : List Box) : ∀ (M : List (Nat × Nat)) (t : CentroidTracker),
    (applyMatches objectIDs inC inB M t).maxDisappeared = t.maxDisappeared
  | [], _ => rfl
  | _rc :: rest, _t => applyMatches_maxDisappeared objectIDs inC inB rest _

theorem applyMatches_frame {objectIDs : List Nat} {inC : List Centroid}
    {inB : List Box} {id : Nat} : ∀ {M : List (Nat × Nat)} (t : CentroidTracker),
    id ∉ M.map (fun p => objectIDs.getD p.1 0) →
    List.lookup id (applyMatches objectIDs inC inB M t).objects =
      List.lookup id t.objects ∧
    List.lookup id (applyMatches objectIDs inC inB M t).object_boxes =
      List.lookup id t.object_boxes ∧
    List.lookup id (applyMatches objectIDs inC inB M t).disappeared =
      List.lookup id t.disappeared ∧
    (id ∈ keysOf (applyMatches objectIDs inC inB M t).objects ↔
      id ∈ keysOf t.objects)
  | [], _, _ => ⟨rfl, rfl, rfl, Iff.rfl⟩
  | rc :: rest, t, h => by
      rw [List.map_cons] at h
      have h1 : id ≠ objectIDs.getD rc.1 0 :=
        fun he => h (by rw [he]; exact List.mem_cons_self _ _)
      have h2 : id ∉ rest.map (fun p => objectIDs.getD p.1 0) :=
        fun he => h (List.mem_cons_of_mem _ he)
      obtain ⟨b1, b2, b3, b4⟩ :=
        applyMatches_frame (applyOne objectIDs inC inB t rc) h2
      rw [applyMatches]
      refine ⟨?_, ?_, ?_, ?_⟩
      · rw [b1, applyOne_objects, lookup_setVal_ne _ _ h1]
      · rw [b2, applyOne_object_boxes, lookup_setVal_ne _ _ h1]
      · rw [b3, applyOne_disappeared, lookup_setVal_ne _ _ h1]
      · rw [b4, applyOne_objects, mem_keysOf_setVal_iff _ h1]

theorem applyMatches_self {objectIDs : List Nat} {inC : List Centroid}
    {inB : List Box} {p : Nat × Nat} : ∀ {M : List (Nat × Nat)}
    (t : CentroidTracker),
    (M.map (fun q => objectIDs.getD q.1 0)).Nodup → p ∈ M →
    List.lookup (objectIDs.getD p.1 0)
        (applyMatches objectIDs inC inB M t).objects =
      some (inC.getD p.2 (0, 0)) ∧
    List.lookup (objectIDs.getD p.1 0)
        (applyMatches objectIDs inC inB M t).object_boxes =
      some (inB.getD p.2 ⟨0, 0, 0, 0⟩) ∧
    List.lookup (objectIDs.getD p.1 0)
        (applyMatches objectIDs inC inB M t).disappeared = some 0
  | [], _, _, hp => absurd hp (List.not_mem_nil p)
  | q :: rest, t, hnd, hp => by
      rw [List.map_cons, List.nodup_cons] at hnd
      by_cases hpq : p = q
      · subst hpq
        have hni : objectIDs.getD p.1 0 ∉
            rest.map (fun q => objectIDs.getD q.1 0) := hnd.1
        obtain ⟨b1, b2, b3, -⟩ :=
          applyMatches_frame (applyOne objectIDs inC inB t p) hni
        rw [applyMatches]
        refine ⟨?_, ?_, ?_⟩
        · rw [b1, applyOne_objects, lookup_setVal_self]
        · rw [b2, applyOne_object_boxes, lookup_setVal_self]
        · rw [b3, applyOne_disappeared, lookup_setVal_self]
      · have hp' : p ∈ rest := (List.mem_cons.mp hp).resolve_left hpq
        rw [applyMatches]
        exact applyMatches_self _ hnd.2 hp'

theorem applyMatches_keys {objectIDs : List Nat} {inC : List Centroid}
    {inB : List Box} : ∀ {M : List (Nat × Nat)} (t : CentroidTracker),
    t.Synced → (∀ p ∈ M, objectIDs.getD p.1 0 ∈ keysOf t.objects) →
    keysOf (applyMatches objectIDs inC inB M t).objects = keysOf t.objects ∧
    keysOf (applyMatches objectIDs inC inB M t).disappeared =
      keysOf t.disappeared ∧
    keysOf (applyMatches objectIDs inC inB M t).object_boxes =
      keysOf t.object_boxes
  | [], _, _, _ => ⟨rfl, rfl, rfl⟩
  | q :: rest, t, hsync, hmem => by
      have hq : objectIDs.getD q.1 0 ∈ keysOf t.objects :=
        hmem q (List.mem_cons_self q rest)
      have hqd : objectIDs.getD q.1 0 ∈ keysOf t.disappeared := by
        rw [hsync.1]; exact hq
      have hqb : objectIDs.getD q.1 0 ∈ keysOf t.object_boxes := by
        rw [hsync.2]; exact hq
      have e1 : keysOf (applyOne objectIDs inC inB t q).objects =
          keysOf t.objects := by
        rw [applyOne_objects, keysOf_setVal_of_mem _ hq]
      have e2 : keysOf (applyOne objectIDs inC inB t q).disappeared =
          keysOf t.disappeared := by
        rw [applyOne_disappeared, keysOf_setVal_of_mem _ hqd]
      have e3 : keysOf (applyOne objectIDs inC inB t q).object_boxes =
          keysOf t.object_boxes := by
        rw [applyOne_object_boxes, keysOf_setVal_of_mem _ hqb]
      have hsync' : (applyOne objectIDs inC inB t q).Synced :=
        ⟨by rw [e2, e1, hsync.1], by rw [e3, e1, hsync.2]⟩
      have hmem' : ∀ p ∈ rest,
          objectIDs.getD p.1 0 ∈ keysOf (applyOne objectIDs inC inB t q).objects := by
        intro p hp
        rw [e1]
        exact hmem p (List.mem_cons_of_mem q hp)
      obtain ⟨i1, i2, i3⟩ :=
        applyMatches_keys (applyOne objectIDs inC inB t q) hsync' hmem'
      rw [applyMatches]
      exact ⟨i1.trans e1, i2.trans e2, i3.trans e3⟩

theorem WF_applyMatches {objectIDs : List Nat} {inC : List Centroid}
    {inB : List Box} {M : List (Nat × Nat)} {t : CentroidTracker}
    (hwf : t.WF) (hmem : ∀ p ∈ M, objectIDs.getD p.1 0 ∈ keysOf t.objects) :
    (applyMatches objectIDs inC inB M t).WF := by
  obtain ⟨hnd, hd, hb, hlt⟩ := hwf
  obtain ⟨e1, e2, e3⟩ := @applyMatches_keys objectIDs inC inB M t ⟨hd, hb⟩ hmem
  refine ⟨?_, ?_, ?_, ?_⟩
  · rw [e1]; exact hnd
  · rw [e1, e2, hd]
  · rw [e1, e3, hb]
  · intro id hid
    rw [applyMatches_nextObjectID]
    rw [e1] at hid
    exact hlt id hid

theorem applyMatches_lookup_le {objectIDs : List Nat} {inC : List Centroid}
    {inB : List Box} : ∀ {M : List (Nat × Nat)} (t : CentroidTracker)
    {id c : Nat},
    List.lookup id (applyMatches objectIDs inC inB M t).disappeared = some c →
    c = 0 ∨ List.lookup id t.disappeared = some c
  | [], _, _, _, h => Or.inr h
  | rc :: rest, t, id, c, h => by
      rw [applyMatches] at h
      rcases applyMatches_lookup_le (applyOne objectIDs inC inB t rc) h with h' | h'
      · exact Or.inl h'
      · by_cases hid : id = objectIDs.getD rc.1 0
        · subst hid
          rw [applyOne_disappeared, lookup_setVal_self] at h'
          cases h'
          exact Or.inl rfl
        · rw [applyOne_disappeared, lookup_setVal_ne _ _ hid] at h'
          exact Or.inr h'

/-! ### The matching loop computes the greedy pairs -/

theorem matchLoop_eq (objectIDs : List Nat) (inC : List Centroid)
    (inB : List Box) : ∀ (ps : List (Nat × Nat)) (ur uc : List Nat)
    (t : CentroidTracker),
    matchLoop objectIDs inC inB ps ur uc t =
      (((greedyPairs ps ur uc).map Prod.fst).reverse ++ ur,
       ((greedyPairs ps ur uc).map Prod.snd).reverse ++ uc,
       applyMatches objectIDs inC inB (greedyPairs ps ur uc) t)
  | [], ur, uc, t => by simp [matchLoop, greedyPairs, applyMatches]
  | (r, c) :: rest, ur, uc, t => by
      rw [matchLoop, greedyPairs]
      by_cases h : r ∈ ur ∨ c ∈ uc
      · rw [if_pos h, if_pos h]
        exact matchLoop_eq objectIDs inC inB rest ur uc t
      · rw [if_neg h, if_neg h,
          matchLoop_eq objectIDs inC inB rest (r :: ur) (c :: uc) _]
        simp [List.append_assoc, applyMatches]

theorem greedyPairs_sublist : ∀ (ps : List (Nat × Nat)) (ur uc : List Nat),
    (greedyPairs ps ur uc).Sublist ps
  | [], _, _ => List.Sublist.refl []
  | (r, c) :: rest, ur, uc => by
      rw [greedyPairs]
      split
      · exact (greedyPairs_sublist rest ur uc).cons (r, c)
      · exact (greedyPairs_sublist rest (r :: ur) (c :: uc)).cons₂ (r, c)

theorem greedyPairs_fst_nodup : ∀ (ps : List (Nat × Nat)) (ur uc : List Nat),
    ((greedyPairs ps ur uc).map Prod.fst).Nodup ∧
    ∀ r ∈ (greedyPairs ps ur uc).map Prod.fst, r ∉ ur
  | [], _, _ => ⟨List.nodup_nil, by simp [greedyPairs]⟩
  | (r, c) :: rest, ur, uc => by
      rw [greedyPairs]
      split
      · exact greedyPairs_fst_nodup rest ur uc
      · rename_i hcond
        obtain ⟨ihnd, ihfst⟩ := greedyPairs_fst_nodup rest (r :: ur) (c :: uc)
        rw [not_or] at hcond
        constructor
        · rw [List.map_cons, List.nodup_cons]
          exact ⟨fun hmem => ihfst r hmem (List.mem_cons_self r ur), ihnd⟩
        · intro x hx
          rw [List.map_cons, List.mem_cons] at hx
          rcases hx with hx | hx
          · subst hx
            exact hcond.1
          · exact fun hxur => ihfst x hx (List.mem_cons_of_mem r hxur)

theorem greedyPairs_snd_nodup : ∀ (ps : List (Nat × Nat)) (ur uc : List Nat),
    ((greedyPairs ps ur uc).map Prod.snd).Nodup ∧
    ∀ col ∈ (greedyPairs ps ur uc).map Prod.snd, col ∉ uc
  | [], _, _ => ⟨List.nodup_nil, by simp [greedyPairs]⟩
  | (r, c) :: rest, ur, uc => by
      rw [greedyPairs]
      split
      · exact greedyPairs_snd_nodup rest ur uc
      · rename_i hcond
        obtain ⟨ihnd, ihsnd⟩ := greedyPairs_snd_nodup rest (r :: ur) (c :: uc)
        rw [not_or] at hcond
        constructor
        · rw [List.map_cons, List.nodup_cons]
          exact ⟨fun hmem => ihsnd c hmem (List.mem_cons_self c uc), ihnd⟩
        · intro x hx
          rw [List.map_cons, List.mem_cons] at hx
          rcases hx with hx | hx
          · subst hx
            exact hcond.2
          · exact fun hxuc => ihsnd x hx (List.mem_cons_of_mem c hxuc)

theorem greedyPairs_covers : ∀ (ps : List (Nat × Nat)) (ur uc : List Nat),
    ∀ p ∈ ps, p ∈ greedyPairs ps ur uc ∨
      p.1 ∈ (greedyPairs ps ur uc).map Prod.fst ∨ p.1 ∈ ur ∨
      p.2 ∈ (greedyPairs ps ur uc).map Prod.snd ∨ p.2 ∈ uc
  | [], _, _ => by simp
  | (r, c) :: rest, ur, uc => by
      intro p hp
      rw [greedyPairs]
      rcases List.mem_cons.mp hp with hpe | hpr
      · subst hpe
        split
        · rename_i hcond
          rcases hcond with h | h
          · exact Or.inr (Or.inr (Or.inl h))
          · exact Or.inr (Or.inr (Or.inr (Or.inr h)))
        · exact Or.inl (List.mem_cons_self _ _)
      · split
        · exact greedyPairs_covers rest ur uc p hpr
        · rcases greedyPairs_covers rest (r :: ur) (c :: uc) p hpr with
            h | h | h | h | h
          · exact Or.inl (List.mem_cons_of_mem _ h)
          · exact Or.inr (Or.inl (by rw [List.map_cons]; exact List.mem_cons_of_mem _ h))
          · rcases List.mem_cons.mp h with h | h
            · refine Or.inr (Or.inl ?_)
              rw [List.map_cons, h]
              exact List.mem_cons_self _ _
            · exact Or.inr (Or.inr (Or.inl h))
          · exact Or.inr (Or.inr (Or.inr (Or.inl
              (by rw [List.map_cons]; exact List.mem_cons_of_mem _ h))))
          · rcases List.mem_cons.mp h with h | h
            · refine Or.inr (Or.inr (Or.inr (Or.inl ?_)))
              rw [List.map_cons, h]
              exact List.mem_cons_self _ _
            · exact Or.inr (Or.inr (Or.inr (Or.inr h)))

/-! ### Argmin and argsort -/

theorem argminAux_spec : ∀ (xs : List Int) (i : Nat) (bv : Int) (best : Nat),
    (argminAux xs i bv best = best ∧ xs.foldl min bv = bv) ∨
    (∃ k, k < xs.length ∧ argminAux xs i bv best = i + k ∧
      xs.getD k 0 = xs.foldl min bv)
  | [], i, bv, best => Or.inl ⟨rfl, rfl⟩
  | x :: xs, i, bv, best => by
      rw [argminAux]
      by_cases h : x < bv
      · rw [if_pos h]
        have hmin : min bv x = x := min_eq_right (le_of_lt h)
        have hfold : (x :: xs).foldl min bv = xs.foldl min x := by
          rw [List.foldl_cons, hmin]
        rcases argminAux_spec xs (i + 1) x i with ⟨e, f⟩ | ⟨k, hk, e, f⟩
        · refine Or.inr ⟨0, by simp, by omega, ?_⟩
          rw [hfold, f]
          rfl
        · refine Or.inr ⟨k + 1, by simpa using hk, by omega, ?_⟩
          rw [hfold, ← f]
          rfl
      · rw [if_neg h]
        have hmin : min bv x = bv := min_eq_left (le_of_not_lt h)
        have hfold : (x :: xs).foldl min bv = xs.foldl min bv := by
          rw [List.foldl_cons, hmin]
        rcases argminAux_spec xs (i + 1) bv best with ⟨e, f⟩ | ⟨k, hk, e, f⟩
        · exact Or.inl ⟨e, by rw [hfold, f]⟩
        · refine Or.inr ⟨k + 1, by simpa using hk, by omega, ?_⟩
          rw [hfold, ← f]
          rfl

theorem argminList_spec (x : Int) (xs : List Int) :
    argminList (x :: xs) < (x :: xs).length ∧
    (x :: xs).getD (argminList (x :: xs)) 0 = listMin (x :: xs) := by
  rw [argminList, listMin]
  rcases argminAux_spec xs 1 x 0 with ⟨e, f⟩ | ⟨k, hk, e, f⟩
  · rw [e]
    refine ⟨Nat.succ_pos _, ?_⟩
    rw [List.getD_cons_zero]
    exact f.symm
  · rw [e]
    constructor
    · simp only [List.length_cons]
      omega
    · rw [Nat.add_comm 1 k, List.getD_cons_succ]
      exact f

theorem argsortKeys_perm (keys : List Int) :
    (argsortKeys keys).Perm (List.range keys.length) :=
  List.mergeSort_perm _ _

theorem argsortKeys_length (keys : List Int) :
    (argsortKeys keys).length = keys.length := by
  rw [(argsortKeys_perm keys).length_eq, List.length_range]

theorem mem_argsortKeys {keys : List Int} {r : Nat} :
    r ∈ argsortKeys keys ↔ r < keys.length := by
  rw [(argsortKeys_perm keys).mem_iff, List.mem_range]

theorem argsortKeys_sorted (keys : List Int) :
    (argsortKeys keys).Pairwise (fun i j => keys.getD i 0 ≤ keys.getD j 0) := by
  have h := @List.sorted_mergeSort Nat
    (fun i j => decide (keys.getD i 0 ≤ keys.getD j 0))
    (fun a b c hab hbc => by
      simp only [decide_eq_true_eq] at hab hbc ⊢
      exact le_trans hab hbc)
    (fun a b => by
      simp only [Bool.or_eq_true, decide_eq_true_eq]
      exact le_total _ _)
    (List.range keys.length)
  exact h.imp (fun hab => of_decide_eq_true hab)

theorem pair_sublist_range {i j n : Nat} (hij : i < j) (hj : j < n) :
    [i, j].Sublist (List.range n) := by
  have hn : n = j + (n - j) := by omega
  rw [hn, List.range_add]
  have h1 : [i].Sublist (List.range j) :=
    List.singleton_sublist.mpr (List.mem_range.mpr hij)
  have h2 : [j].Sublist ((List.range (n - j)).map (fun x => j + x)) := by
    refine List.singleton_sublist.mpr ?_
    refine List.mem_map.mpr ⟨0, ?_, by omega⟩
    exact List.mem_range.mpr (by omega)
  exact List.Sublist.append h1 h2

theorem argsortKeys_stable {keys : List Int} {i j : Nat} (hij : i < j)
    (hj : j < keys.length) (heq : keys.getD i 0 = keys.getD j 0) :
    [i, j].Sublist (argsortKeys keys) := by
  refine List.sublist_mergeSort
    (fun a b c hab hbc => by
      simp only [decide_eq_true_eq] at hab hbc ⊢
      exact le_trans hab hbc)
    (fun a b => by
      simp only [Bool.or_eq_true, decide_eq_true_eq]
      exact le_total _ _)
    ?_ (pair_sublist_range hij hj)
  refine List.Pairwise.cons ?_ (List.pairwise_singleton _ _)
  intro b hb
  rw [List.mem_singleton] at hb
  subst hb
  exact decide_eq_true (le_of_eq heq)

/-! ### Branch equations for update -/

theorem update_empty_eq (t : CentroidTracker) :
    t.update [] = bumpAll (keysOf t.disappeared) t := rfl

theorem update_register_eq (t : CentroidTracker) {dets : List Box}
    (hobj : t.objects = []) (hdet : dets ≠ []) :
    t.update dets = registerAll ((dets.map centroid).zip dets) t := by
  cases dets with
  | nil => exact absurd rfl hdet
  | cons d ds =>
      rw [CentroidTracker.update]
      rw [if_neg (by rw [List.isEmpty_cons]; exact Bool.false_ne_true)]
      rw [if_pos (by rw [hobj]; rfl)]

theorem update_general_eq (t : CentroidTracker) {dets : List Box}
    (hobj : t.objects ≠ []) (hdet : dets ≠ []) :
    t.update dets =
      registerAll
        (((List.range (dets.map centroid).length).filter
            (fun c => c ∉ (greedyPairs
              (matchPairs (distMatrix (t.objects.map Prod.snd) (dets.map centroid)))
              [] []).map Prod.snd)).map
          (fun c => ((dets.map centroid).getD c (0, 0), dets.getD c ⟨0, 0, 0, 0⟩)))
        (bumpAll
          (((List.range (distMatrix (t.objects.map Prod.snd) (dets.map centroid)).length).filter
              (fun r => r ∉ (greedyPairs
                (matchPairs (distMatrix (t.objects.map Prod.snd) (dets.map centroid)))
                [] []).map Prod.fst)).map
            (fun r => (keysOf t.objects).getD r 0))
          (applyMatches (keysOf t.objects) (dets.map centroid) dets
            (greedyPairs
              (matchPairs (distMatrix (t.objects.map Prod.snd) (dets.map centroid)))
              [] []) t)) := by
  cases dets with
  | nil => exact absurd rfl hdet
  | cons d ds =>
      rw [CentroidTracker.update]
      rw [if_neg (by rw [List.isEmpty_cons]; exact Bool.false_ne_true)]
      rw [if_neg (by
        intro he
        exact hobj (List.isEmpty_iff.mp he))]
      simp only [matchLoop_eq, List.append_nil, List.mem_reverse]

/-! ### Well-formedness is preserved by update -/

theorem distMatrix_length (oc ic : List Centroid) :
    (distMatrix oc ic).length = oc.length :=
  List.length_map _ _

theorem mem_matchPairs {D : List (List Int)} {p : Nat × Nat}
    (hp : p ∈ matchPairs D) :
    p.1 < D.length ∧ p.2 = argminList (D.getD p.1 []) := by
  rw [matchPairs] at hp
  obtain ⟨r, hr, he⟩ := List.mem_map.mp hp
  have h1 : r < (D.map listMin).length := mem_argsortKeys.mp hr
  rw [List.length_map] at h1
  constructor
  · rw [← he]
    exact h1
  · rw [← he]

theorem getD_mem_of_lt {l : List α} {r : Nat} (h : r < l.length) (d : α) :
    l.getD r d ∈ l := by
  rw [List.getD_eq_getElem l d h]
  exact List.getElem_mem h

theorem map_getD_nodup {ids : List Nat} (hnd : ids.Nodup) {rows : List Nat}
    (hrnd : rows.Nodup) (hlt : ∀ r ∈ rows, r < ids.length) :
    (rows.map (fun r => ids.getD r 0)).Nodup := by
  refine hrnd.map_on ?_
  intro x hx y hy he
  rw [List.getD_eq_getElem _ _ (hlt x hx), List.getD_eq_getElem _ _ (hlt y hy)]
    at he
  exact (List.Nodup.getElem_inj_iff hnd).mp he

theorem keysOf_enumFrom (n : Nat) : ∀ (l : List α),
    keysOf (List.enumFrom n l) = List.range' n l.length
  | [] => rfl
  | a :: rest => by
      rw [List.enumFrom, keysOf_cons, List.length_cons, List.range'_succ,
        keysOf_enumFrom (n + 1) rest]

theorem greedyUpdate_mem_keys {t : CentroidTracker} (_hwf : t.WF)
    {dets : List Box} :
    ∀ p ∈ greedyPairs
        (matchPairs (distMatrix (t.objects.map Prod.snd) (dets.map centroid)))
        [] [],
      (keysOf t.objects).getD p.1 0 ∈ keysOf t.objects := by
  intro p hp
  have hmp : p ∈ matchPairs (distMatrix (t.objects.map Prod.snd) (dets.map centroid)) :=
    (greedyPairs_sublist _ _ _).subset hp
  have h1 := (mem_matchPairs hmp).1
  rw [distMatrix_length, List.length_map] at h1
  have h2 : p.1 < (keysOf t.objects).length := by
    rw [keysOf, List.length_map]
    exact h1
  exact getD_mem_of_lt h2 0

theorem update_general_eq2 (t : CentroidTracker) {dets : List Box}
    (hobj : t.objects ≠ []) (hdet : dets ≠ []) :
    t.update dets = registerAll (t.newEntries dets) (t.afterRows dets) :=
  update_general_eq t hobj hdet

theorem WF_afterMatch {t : CentroidTracker} (hwf : t.WF) (dets : List Box) :
    (t.afterMatch dets).WF :=
  WF_applyMatches hwf (greedyUpdate_mem_keys hwf)

theorem afterMatch_keys {t : CentroidTracker} (hwf : t.WF) (dets : List Box) :
    keysOf (t.afterMatch dets).objects = keysOf t.objects ∧
    keysOf (t.afterMatch dets).disappeared = keysOf t.disappeared ∧
    keysOf (t.afterMatch dets).object_boxes = keysOf t.object_boxes :=
  applyMatches_keys t ⟨hwf.2.1, hwf.2.2.1⟩ (greedyUpdate_mem_keys hwf)

theorem afterMatch_nextObjectID (t : CentroidTracker) (dets : List Box) :
    (t.afterMatch dets).nextObjectID = t.nextObjectID :=
  applyMatches_nextObjectID _ _ _ _ _

theorem afterMatch_maxDisappeared (t : CentroidTracker) (dets : List Box) :
    (t.afterMatch dets).maxDisappeared = t.maxDisappeared :=
  applyMatches_maxDisappeared _ _ _ _ _

theorem unusedRowList_lt {t : CentroidTracker} {dets : List Box} :
    ∀ r ∈ t.unusedRowList dets, r < (keysOf t.objects).length := by
  intro r hr
  have hmr := List.mem_range.mp (List.mem_of_mem_filter hr)
  rw [CentroidTracker.Dmat, distMatrix_length, List.length_map] at hmr
  rw [keysOf, List.length_map]
  exact hmr

theorem unusedRowIds_nodup {t : CentroidTracker} (hwf : t.WF)
    (dets : List Box) :
    ((t.unusedRowList dets).map (fun r => (keysOf t.objects).getD r 0)).Nodup :=
  map_getD_nodup hwf.1 ((List.nodup_range _).filter _) unusedRowList_lt

theorem unusedRowIds_mem {t : CentroidTracker} (dets : List Box) :
    ∀ i ∈ (t.unusedRowList dets).map (fun r => (keysOf t.objects).getD r 0),
      i ∈ keysOf t.objects := by
  intro i hi
  obtain ⟨r, hr, he⟩ := List.mem_map.mp hi
  rw [← he]
  exact getD_mem_of_lt (unusedRowList_lt r hr) 0

theorem WF_afterRows {t : CentroidTracker} (hwf : t.WF) (dets : List Box) :
    (t.afterRows dets).WF := by
  rw [CentroidTracker.afterRows]
  refine WF_bumpAll (WF_afterMatch hwf dets) (unusedRowIds_nodup hwf dets) ?_
  intro i hi
  rw [(afterMatch_keys hwf dets).1]
  exact unusedRowIds_mem dets i hi

theorem afterRows_nextObjectID (t : CentroidTracker) (dets : List Box) :
    (t.afterRows dets).nextObjectID = t.nextObjectID := by
  rw [CentroidTracker.afterRows, bumpAll_nextObjectID, afterMatch_nextObjectID]

theorem afterRows_maxDisappeared (t : CentroidTracker) (dets : List Box) :
    (t.afterRows dets).maxDisappeared = t.maxDisappeared := by
  rw [CentroidTracker.afterRows, bumpAll_maxDisappeared, afterMatch_maxDisappeared]

theorem afterRows_keys_subset {t : CentroidTracker} (hwf : t.WF)
    (dets : List Box) :
    keysOf (t.afterRows dets).objects ⊆ keysOf t.objects := by
  intro id hid
  rw [CentroidTracker.afterRows] at hid
  have h1 := bumpAll_objects_keys_subset _ _ hid
  rw [(afterMatch_keys hwf dets).1] at h1
  exact h1

theorem WF_update {t : CentroidTracker} (hwf : t.WF) (dets : List Box) :
    (t.update dets).WF := by
  by_cases hdet : dets = []
  · subst hdet
    rw [update_empty_eq]
    refine WF_bumpAll hwf ?_ ?_
    · rw [hwf.2.1]
      exact hwf.1
    · intro i hi
      rw [hwf.2.1] at hi
      exact hi
  · by_cases hobj : t.objects = []
    · rw [update_register_eq t hobj hdet]
      exact (registerAll_closed _ t hwf).1
    · rw [update_general_eq2 t hobj hdet]
      exact (registerAll_closed _ _ (WF_afterRows hwf dets)).1

theorem update_nextObjectID (t : CentroidTracker) (dets : List Box) :
    (t.update dets).nextObjectID = t.nextObjectID + t.regCount dets := by
  by_cases hdet : dets = []
  · subst hdet
    rw [update_empty_eq, bumpAll_nextObjectID]
    rfl
  · by_cases hobj : t.objects = []
    · rw [update_register_eq t hobj hdet, registerAll_nextObjectID,
        CentroidTracker.regCount,
        if_neg (by simp [List.isEmpty_iff, hdet]),
        if_pos (by rw [hobj]; rfl)]
      congr 1
      rw [List.length_zip, List.length_map]
      exact min_self _
    · rw [update_general_eq2 t hobj hdet, registerAll_nextObjectID,
        afterRows_nextObjectID, CentroidTracker.regCount,
        if_neg (by simp [List.isEmpty_iff, hdet]),
        if_neg (by simp [List.isEmpty_iff, hobj])]
      congr 1
      rw [CentroidTracker.newEntries, List.length_map]

theorem update_nextID_mono (t : CentroidTracker) (dets : List Box) :
    t.nextObjectID ≤ (t.update dets).nextObjectID := by
  rw [update_nextObjectID]
  exact Nat.le_add_right _ _

theorem update_keys_subset {t : CentroidTracker} (hwf : t.WF) (dets : List Box) :
    ∀ id ∈ keysOf (t.update dets).objects,
      id ∈ keysOf t.objects ∨ t.nextObjectID ≤ id := by
  by_cases hdet : dets = []
  · subst hdet
    rw [update_empty_eq]
    intro id hid
    exact Or.inl (bumpAll_objects_keys_subset _ _ hid)
  · by_cases hobj : t.objects = []
    · rw [update_register_eq t hobj hdet]
      obtain ⟨-, e1, -, -⟩ := registerAll_closed _ t hwf
      intro id hid
      rw [e1, keysOf_append] at hid
      rcases List.mem_append.mp hid with h | h
      · exact Or.inl h
      · rw [keysOf_enumFrom] at h
        exact Or.inr (List.mem_range'_1.mp h).1
    · rw [update_general_eq2 t hobj hdet]
      obtain ⟨-, e1, -, -⟩ := registerAll_closed _ _ (WF_afterRows hwf dets)
      intro id hid
      rw [e1, keysOf_append] at hid
      rcases List.mem_append.mp hid with h | h
      · exact Or.inl (afterRows_keys_subset hwf dets h)
      · rw [keysOf_enumFrom] at h
        have := (List.mem_range'_1.mp h).1
        rw [afterRows_nextObjectID] at this
        exact Or.inr this

theorem WF_runUpdates {t : CentroidTracker} (hwf : t.WF) :
    ∀ (ds : List (List Box)), (runUpdates t ds).WF
  | [] => hwf
  | d :: ds => WF_runUpdates (WF_update hwf d) ds

theorem runUpdates_nextObjectID : ∀ (ds : List (List Box)) (t : CentroidTracker),
    (runUpdates t ds).nextObjectID = t.nextObjectID + traceRegCount t ds
  | [], t => rfl
  | d :: ds, t => by
      rw [runUpdates, traceRegCount, runUpdates_nextObjectID ds,
        update_nextObjectID]
      omega

theorem runUpdates_not_mem {t : CentroidTracker} {id : Nat} (hwf : t.WF)
    (hlt : id < t.nextObjectID) (hnm : id ∉ keysOf t.objects) :
    ∀ (ds : List (List Box)), id ∉ keysOf (runUpdates t ds).objects
  | [] => hnm
  | d :: ds => by
      rw [runUpdates]
      refine runUpdates_not_mem (WF_update hwf d) ?_ ?_ ds
      · exact Nat.lt_of_lt_of_le hlt (update_nextID_mono t d)
      · intro hmem
        rcases update_keys_subset hwf d id hmem with h | h
        · exact hnm h
        · omega

/-! ### Further helper lemmas -/

theorem update_maxDisappeared (t : CentroidTracker) (dets : List Box) :
    (t.update dets).maxDisappeared = t.maxDisappeared := by
  by_cases hdet : dets = []
  · subst hdet
    rw [update_empty_eq, bumpAll_maxDisappeared]
  · by_cases hobj : t.objects = []
    · rw [update_register_eq t hobj hdet, registerAll_maxDisappeared]
    · rw [update_general_eq2 t hobj hdet, registerAll_maxDisappeared,
        afterRows_maxDisappeared]

theorem matchPairs_map_fst (D : List (List Int)) :
    (matchPairs D).map Prod.fst = argsortKeys (D.map listMin) := by
  rw [matchPairs, List.map_map]
  exact List.map_id _

theorem getD_map_listMin {D : List (List Int)} {r : Nat} (h : r < D.length) :
    (D.map listMin).getD r 0 = listMin (D.getD r []) := by
  rw [List.getD_eq_getElem _ _ (by rw [List.length_map]; exact h),
    List.getElem_map, List.getD_eq_getElem _ _ h]

theorem getD_map_of_lt {l : List α} (f : α → β) {k : Nat} (h : k < l.length)
    (d : α) (e : β) : (l.map f).getD k e = f (l.getD k d) := by
  rw [List.getD_eq_getElem _ _ (by rw [List.length_map]; exact h),
    List.getElem_map, List.getD_eq_getElem _ _ h]

theorem distMatrix_entry {oc ic : List Centroid} {i j : Nat}
    (hi : i < oc.length) (hj : j < ic.length) :
    ((distMatrix oc ic).getD i []).getD j 0 =
      distSq (oc.getD i (0, 0)) (ic.getD j (0, 0)) := by
  rw [distMatrix,
    getD_map_of_lt (fun oc0 => ic.map fun ic0 => distSq oc0 ic0) hi (0, 0) [],
    getD_map_of_lt (fun ic0 => distSq (oc.getD i (0, 0)) ic0) hj (0, 0) 0]

theorem distMatrix_row_length {oc ic : List Centroid} {row : List Int}
    (h : row ∈ distMatrix oc ic) : row.length = ic.length := by
  rw [distMatrix] at h
  obtain ⟨oc0, -, he⟩ := List.mem_map.mp h
  rw [← he, List.length_map]

theorem lookup_enumFrom (d : α) : ∀ (vals : List α) (n k : Nat),
    k < vals.length →
    List.lookup (n + k) (List.enumFrom n vals) = some (vals.getD k d)
  | [], _, k, h => absurd h (by simp)
  | a :: rest, n, 0, h => by
      rw [List.enumFrom, Nat.add_zero, lookup_cons, if_pos rfl]
      rfl
  | a :: rest, n, k + 1, h => by
      rw [List.enumFrom, lookup_cons, if_neg (by omega)]
      have he : n + (k + 1) = (n + 1) + k := by omega
      rw [he, lookup_enumFrom d rest (n + 1) k (by simpa using h),
        List.getD_cons_succ]

theorem lookup_range'_zero : ∀ (len n k : Nat), k < len →
    List.lookup (n + k) ((List.range' n len).map (fun id => (id, 0))) =
      some (0 : Nat)
  | 0, _, k, h => absurd h (by omega)
  | len + 1, n, 0, h => by
      rw [List.range'_succ, List.map_cons, Nat.add_zero, lookup_cons, if_pos rfl]
  | len + 1, n, k + 1, h => by
      rw [List.range'_succ, List.map_cons, lookup_cons, if_neg (by omega)]
      have he : n + (k + 1) = (n + 1) + k := by omega
      rw [he]
      exact lookup_range'_zero len (n + 1) k (by omega)

theorem mem_of_lookup : ∀ {l : List (Nat × α)} {id : Nat} {v : α},
    List.lookup id l = some v → (id, v) ∈ l
  | [], _, _, h => by simp at h
  | (k, w) :: rest, id, v, h => by
      rw [lookup_cons] at h
      by_cases hk : id = k
      · rw [if_pos hk] at h
        cases h
        rw [hk]
        exact List.mem_cons_self _ _
      · rw [if_neg hk] at h
        exact List.mem_cons_of_mem _ (mem_of_lookup h)

theorem lookup_eq_of_mem_of_nodup : ∀ {l : List (Nat × α)} {p : Nat × α},
    (keysOf l).Nodup → p ∈ l → List.lookup p.1 l = some p.2
  | [], p, _, hmem => absurd hmem (List.not_mem_nil p)
  | q :: rest, p, hnd, hmem => by
      rw [keysOf_cons, List.nodup_cons] at hnd
      rcases List.mem_cons.mp hmem with h | h
      · subst h
        rw [lookup_cons, if_pos rfl]
      · have hne : p.1 ≠ q.1 := by
          intro he
          refine hnd.1 ?_
          rw [← he]
          exact List.mem_map.mpr ⟨p, h, rfl⟩
        rw [lookup_cons, if_neg hne]
        exact lookup_eq_of_mem_of_nodup hnd.2 h

theorem WF_init (m : Nat) : (CentroidTracker.init m).WF :=
  ⟨List.nodup_nil, rfl, rfl, fun id h => absurd h (List.not_mem_nil id)⟩

theorem tdiv_two_eq_truncHalf (n : Int) :
    Int.tdiv n 2 = truncHalfTowardZero n := by
  cases n with
  | ofNat k =>
      rw [truncHalfTowardZero,
        if_pos (show (0 : Int) ≤ Int.ofNat k by exact Int.ofNat_nonneg k)]
      rfl
  | negSucc k =>
      rw [truncHalfTowardZero,
        if_neg (fun h => (Int.negSucc_not_nonneg k).mp h)]
      rfl

theorem Dmat_length (t : CentroidTracker) (dets : List Box) :
    (t.Dmat dets).length = t.objects.length := by
  rw [CentroidTracker.Dmat, distMatrix_length, List.length_map]

theorem consumed_mem_candidate {t : CentroidTracker} {dets : List Box}
    {p : Nat × Nat} (hp : p ∈ t.consumedPairs dets) :
    p ∈ t.candidatePairs dets :=
  (greedyPairs_sublist _ _ _).subset hp

theorem consumed_fst_lt {t : CentroidTracker} {dets : List Box} {p : Nat × Nat}
    (hp : p ∈ t.consumedPairs dets) : p.1 < (keysOf t.objects).length := by
  have h1 := (mem_matchPairs (consumed_mem_candidate hp)).1
  rw [Dmat_length] at h1
  rw [keysOf, List.length_map]
  exact h1

theorem matched_ids_nodup {t : CentroidTracker} (hwf : t.WF) (dets : List Box) :
    ((t.consumedPairs dets).map
      (fun q => (keysOf t.objects).getD q.1 0)).Nodup := by
  have he : (t.consumedPairs dets).map
        (fun q => (keysOf t.objects).getD q.1 0) =
      ((t.consumedPairs dets).map Prod.fst).map
        (fun r => (keysOf t.objects).getD r 0) := by
    rw [List.map_map]
    rfl
  rw [he]
  refine map_getD_nodup hwf.1 (greedyPairs_fst_nodup _ [] []).1 ?_
  intro r hr
  obtain ⟨q, hq, hqe⟩ := List.mem_map.mp hr
  rw [← hqe]
  exact consumed_fst_lt hq

theorem matched_lookup {t : CentroidTracker} (hwf : t.WF) {dets : List Box}
    (hobj : t.objects ≠ []) (hdet : dets ≠ []) {p : Nat × Nat}
    (hp : p ∈ t.consumedPairs dets) :
    List.lookup ((keysOf t.objects).getD p.1 0) (t.update dets).objects =
      some ((dets.map centroid).getD p.2 (0, 0)) ∧
    List.lookup ((keysOf t.objects).getD p.1 0) (t.update dets).object_boxes =
      some (dets.getD p.2 ⟨0, 0, 0, 0⟩) ∧
    List.lookup ((keysOf t.objects).getD p.1 0) (t.update dets).disappeared =
      some 0 := by
  obtain ⟨m1, m2, m3⟩ :=
    applyMatches_self t (matched_ids_nodup hwf dets) hp
  have hframe : (keysOf t.objects).getD p.1 0 ∉
      (t.unusedRowList dets).map (fun r => (keysOf t.objects).getD r 0) := by
    intro hmem
    obtain ⟨r, hr, hre⟩ := List.mem_map.mp hmem
    have hrp : r = p.1 := by
      have h1 := unusedRowList_lt r hr
      have h2 := consumed_fst_lt hp
      rw [List.getD_eq_getElem _ _ h1, List.getD_eq_getElem _ _ h2] at hre
      exact (List.Nodup.getElem_inj_iff hwf.1).mp hre
    rw [hrp] at hr
    have hnotin : p.1 ∉ (t.consumedPairs dets).map Prod.fst := by
      have hf := List.of_mem_filter hr
      simpa using hf
    exact hnotin (List.mem_map.mpr ⟨p, hp, rfl⟩)
  obtain ⟨f1, f2, f3, -, -, -⟩ :=
    bumpAll_frame (t.afterMatch dets) hframe
  obtain ⟨hwfR, e1, e2, e3⟩ :=
    registerAll_closed (t.newEntries dets) (t.afterRows dets)
      (WF_afterRows hwf dets)
  rw [update_general_eq2 t hobj hdet]
  rw [e1, e2, e3]
  rw [List.lookup_append, List.lookup_append, List.lookup_append]
  have g1 : List.lookup ((keysOf t.objects).getD p.1 0)
      (t.afterRows dets).objects = some ((dets.map centroid).getD p.2 (0, 0)) := by
    rw [CentroidTracker.afterRows, f1]
    exact m1
  have g2 : List.lookup ((keysOf t.objects).getD p.1 0)
      (t.afterRows dets).object_boxes = some (dets.getD p.2 ⟨0, 0, 0, 0⟩) := by
    rw [CentroidTracker.afterRows, f2]
    exact m2
  have g3 : List.lookup ((keysOf t.objects).getD p.1 0)
      (t.afterRows dets).disappeared = some 0 := by
    rw [CentroidTracker.afterRows, f3]
    exact m3
  rw [g1, g2, g3]
  exact ⟨Option.or_some, Option.or_some, Option.or_some⟩

theorem register_branch_closed (t : CentroidTracker) (dets : List Box)
    (hwf : t.WF) (hobj : t.objects = []) (hdet : dets ≠ []) :
    (t.update dets).objects = List.enumFrom t.nextObjectID (dets.map centroid) ∧
    (t.update dets).object_boxes = List.enumFrom t.nextObjectID dets ∧
    (t.update dets).disappeared =
      (List.range' t.nextObjectID dets.length).map (fun id => (id, 0)) ∧
    (t.update dets).nextObjectID = t.nextObjectID + dets.length := by
  have hd : t.disappeared = [] := by
    have h := hwf.2.1
    rw [hobj] at h
    exact List.map_eq_nil_iff.mp h
  have hb : t.object_boxes = [] := by
    have h := hwf.2.2.1
    rw [hobj] at h
    exact List.map_eq_nil_iff.mp h
  obtain ⟨-, e1, e2, e3⟩ := registerAll_closed ((dets.map centroid).zip dets) t hwf
  have hlen : (dets.map centroid).length = dets.length := List.length_map _ _
  have hzf : ((dets.map centroid).zip dets).map Prod.fst = dets.map centroid :=
    List.map_fst_zip _ _ (le_of_eq hlen)
  have hzs : ((dets.map centroid).zip dets).map Prod.snd = dets :=
    List.map_snd_zip _ _ (le_of_eq hlen.symm)
  have hzl : ((dets.map centroid).zip dets).length = dets.length := by
    rw [List.length_zip, hlen, min_self]
  rw [update_register_eq t hobj hdet]
  refine ⟨?_, ?_, ?_, ?_⟩
  · rw [e1, hobj, hzf, List.nil_append]
  · rw [e2, hb, hzs, List.nil_append]
  · rw [e3, hd, hzl, List.nil_append]
  · rw [registerAll_nextObjectID, hzl]

/-- C2: calling `update` with an empty detection list increments every
tracked object's disappearance count, deregisters exactly those whose new
count exceeds `maxDisappeared`, performs no registration, and returns the
survivors with their stored boxes unchanged. -/
theorem empty_update_behavior (t : CentroidTracker) (hwf : t.WF) :
    emptyUpdateSpec t := by
  have hids_eq : keysOf t.disappeared = keysOf t.objects := hwf.2.1
  have hnd : (keysOf t.disappeared).Nodup := by
    rw [hids_eq]
    exact hwf.1
  refine ⟨?_, ?_, ?_⟩
  · rw [update_empty_eq, bumpAll_nextObjectID]
  · rw [update_empty_eq]
    intro id hid
    exact bumpAll_objects_keys_subset _ _ hid
  · intro id c hc
    have hmemd : id ∈ keysOf t.disappeared := mem_keysOf_of_lookup hc
    constructor
    · intro hgt
      rw [update_empty_eq]
      exact bumpAll_gone t hnd hmemd hc hgt
    · intro hle
      rw [update_empty_eq]
      obtain ⟨s1, s2, s3, s4, s5, s6⟩ := bumpAll_survive t hnd hmemd hc hle
      refine ⟨s1, s3, s4.mpr ?_⟩
      rw [← hids_eq]
      exact hmemd

/-- Witness for C2: the spec's maxDisappeared = 1 scenario, checked at the
state after frame 1 and again after the first empty frame, together with
the concrete mappings of frames 2 and 3. -/
theorem empty_update_behavior_witness :
    oneObjTracker.WF ∧ emptyUpdateSpec oneObjTracker ∧
    (oneObjTracker.update []).WF ∧ emptyUpdateSpec (oneObjTracker.update []) ∧
    (oneObjTracker.update []).object_boxes = [(0, ⟨0, 0, 10, 10⟩)] ∧
    ((oneObjTracker.update []).update []).objects = [] :=
  ⟨by decide, empty_update_behavior oneObjTracker (by decide), by decide,
   empty_update_behavior (oneObjTracker.update []) (by decide),
   by decide, by decide⟩

/-- C3: `nextObjectID` grows by exactly 1 on each registration and is
otherwise unchanged; across any run it equals the initial value plus the
number of registrations, it is monotone, and an id that is absent and below
`nextObjectID` (in particular a deregistered id) is never reported or
assigned again. -/
theorem nextId_accounting :
    (∀ (t : CentroidTracker) (c : Centroid) (b : Box),
      (t.register c b).nextObjectID = t.nextObjectID + 1) ∧
    (∀ (t : CentroidTracker) (id : Nat),
      (t.deregister id).nextObjectID = t.nextObjectID) ∧
    (∀ (t : CentroidTracker) (dets : List Box),
      (t.update dets).nextObjectID = t.nextObjectID + t.regCount dets ∧
      t.nextObjectID ≤ (t.update dets).nextObjectID) ∧
    (∀ (t : CentroidTracker) (ds : List (List Box)),
      (runUpdates t ds).nextObjectID = t.nextObjectID + traceRegCount t ds) ∧
    (∀ (t : CentroidTracker) (ds : List (List Box)) (id : Nat), t.WF →
      id < t.nextObjectID → id ∉ keysOf t.objects →
      id ∉ keysOf (runUpdates t ds).objects) :=
  ⟨fun _ _ _ => rfl, fun _ _ => rfl,
   fun t dets => ⟨update_nextObjectID t dets, update_nextID_mono t dets⟩,
   fun t ds => runUpdates_nextObjectID ds t,
   fun _ ds _ hwf hlt hnm => runUpdates_not_mem hwf hlt hnm ds⟩

/-- Witness for C3: the tracker that lost id 0 never reports or reassigns
it, and a registration increments `nextObjectID` by exactly one. -/
theorem nextId_accounting_witness :
    lostTracker.WF ∧ 0 < lostTracker.nextObjectID ∧
    0 ∉ keysOf lostTracker.objects ∧
    (lostTracker.register (5, 5) boxA).nextObjectID =
      lostTracker.nextObjectID + 1 ∧
    0 ∉ keysOf (runUpdates lostTracker [[boxA]]).objects :=
  ⟨by decide, by decide, by decide,
   nextId_accounting.1 lostTracker (5, 5) boxA,
   nextId_accounting.2.2.2.2 lostTracker [[boxA]] 0 (by decide) (by decide)
     (by decide)⟩

/-- C4: after `update` returns, every tracked id's disappearance count is
at most `maxDisappeared` (counts are naturals, so also at least 0). -/
theorem counts_bounded (t : CentroidTracker) (dets : List Box) (hwf : t.WF)
    (hc : boundedCounts t) : boundedCounts (t.update dets) := by
  intro p hp
  have hndd : (keysOf (t.update dets).disappeared).Nodup := by
    have h := WF_update hwf dets
    rw [h.2.1]
    exact h.1
  have hl : List.lookup p.1 (t.update dets).disappeared = some p.2 :=
    lookup_eq_of_mem_of_nodup hndd hp
  rw [update_maxDisappeared]
  by_cases hdet : dets = []
  · subst hdet
    rw [update_empty_eq] at hl
    rcases bumpAll_lookup_le _ t hl with h | h
    · exact h
    · exact hc _ (mem_of_lookup h)
  · by_cases hobj : t.objects = []
    · rw [update_register_eq t hobj hdet] at hl
      rcases registerAll_lookup_le _ t hl with h | h
      · rw [h]
        exact Nat.zero_le _
      · exact hc _ (mem_of_lookup h)
    · rw [update_general_eq2 t hobj hdet] at hl
      rcases registerAll_lookup_le _ _ hl with h | h
      · rw [h]
        exact Nat.zero_le _
      · rw [CentroidTracker.afterRows] at h
        rcases bumpAll_lookup_le _ _ h with h2 | h2
        · rw [afterMatch_maxDisappeared] at h2
          exact h2
        · rw [CentroidTracker.afterMatch] at h2
          rcases applyMatches_lookup_le _ h2 with h3 | h3
          · rw [h3]
            exact Nat.zero_le _
          · exact hc _ (mem_of_lookup h3)

/-- Witness for C4: a two-object tracker stays bounded through a general
matching update. -/
theorem counts_bounded_witness :
    twoObjTracker.WF ∧ boundedCounts twoObjTracker ∧
    boundedCounts (twoObjTracker.update [boxA2]) :=
  ⟨by decide, by decide,
   counts_bounded twoObjTracker [boxA2] (by decide) (by decide)⟩

/-- C6: with no existing objects, every detection is registered as a new
object in input order: the assigned ids are `nextObjectID, nextObjectID+1,
...` in input order, each paired with its detection's box. -/
theorem register_all_in_order (t : CentroidTracker) (dets : List Box)
    (hwf : t.WF) (hobj : t.objects = []) (hdet : dets ≠ []) :
    (t.update dets).objects = List.enumFrom t.nextObjectID (dets.map centroid) ∧
    (t.update dets).object_boxes = List.enumFrom t.nextObjectID dets ∧
    (t.update dets).disappeared =
      (List.range' t.nextObjectID dets.length).map (fun id => (id, 0)) ∧
    (t.update dets).nextObjectID = t.nextObjectID + dets.length :=
  register_branch_closed t dets hwf hobj hdet

/-- Witness for C6: two detections against an empty tracker register as
ids 0 and 1 in input order. -/
theorem register_all_in_order_witness :
    (CentroidTracker.init 5).WF ∧ (CentroidTracker.init 5).objects = [] ∧
    ([boxA, boxB] : List Box) ≠ [] ∧
    (((CentroidTracker.init 5).update [boxA, boxB]).objects =
      List.enumFrom 0 ([boxA, boxB].map centroid) ∧
    ((CentroidTracker.init 5).update [boxA, boxB]).object_boxes =
      List.enumFrom 0 [boxA, boxB] ∧
    ((CentroidTracker.init 5).update [boxA, boxB]).disappeared =
      (List.range' 0 ([boxA, boxB] : List Box).length).map (fun id => (id, 0)) ∧
    ((CentroidTracker.init 5).update [boxA, boxB]).nextObjectID =
      0 + ([boxA, boxB] : List Box).length) :=
  ⟨by decide, rfl, by decide,
   register_all_in_order (CentroidTracker.init 5) [boxA, boxB]
     (WF_init 5) rfl (by decide)⟩

/-- C9: `update` is deterministic: identical parameters and identical
per-frame detection sequences produce identical returned mappings and
identical final states. -/
theorem update_deterministic (m1 m2 : Nat) (ds1 ds2 : List (List Box))
    (hm : m1 = m2) (hd : ds1 = ds2) :
    runUpdates (CentroidTracker.init m1) ds1 =
      runUpdates (CentroidTracker.init m2) ds2 ∧
    traceBoxes (CentroidTracker.init m1) ds1 =
      traceBoxes (CentroidTracker.init m2) ds2 := by
  subst hm
  subst hd
  exact ⟨rfl, rfl⟩

/-- Witness for C9: a concrete three-frame run replayed twice. -/
theorem update_deterministic_witness :
    runUpdates (CentroidTracker.init 30) [[boxA], [], [boxA2]] =
      runUpdates (CentroidTracker.init 30) [[boxA], [], [boxA2]] ∧
    traceBoxes (CentroidTracker.init 30) [[boxA], [], [boxA2]] =
      traceBoxes (CentroidTracker.init 30) [[boxA], [], [boxA2]] :=
  update_deterministic 30 30 [[boxA], [], [boxA2]] [[boxA], [], [boxA2]] rfl rfl

/-- C10: after register, deregister, or update, the three internal maps
(id to centroid, id to count, id to box) carry exactly the same key
sequence, so every tracked id has all three entries and deregistration
removes an id from all three maps in the same call. -/
theorem maps_share_keys (t : CentroidTracker) (c : Centroid) (b : Box)
    (id : Nat) (dets : List Box) (hwf : t.WF) :
    (keysOf (t.register c b).disappeared = keysOf (t.register c b).objects ∧
     keysOf (t.register c b).object_boxes = keysOf (t.register c b).objects) ∧
    (keysOf (t.deregister id).disappeared = keysOf (t.deregister id).objects ∧
     keysOf (t.deregister id).object_boxes = keysOf (t.deregister id).objects) ∧
    (keysOf (t.update dets).disappeared = keysOf (t.update dets).objects ∧
     keysOf (t.update dets).object_boxes = keysOf (t.update dets).objects) := by
  refine ⟨⟨(WF_register hwf c b).1.2.1, (WF_register hwf c b).1.2.2.1⟩,
    ⟨?_, ?_⟩,
    ⟨(WF_update hwf dets).2.1, (WF_update hwf dets).2.2.1⟩⟩
  · show keysOf (eraseKey t.disappeared id) = keysOf (eraseKey t.objects id)
    rw [keysOf_eraseKey, keysOf_eraseKey, hwf.2.1]
  · show keysOf (eraseKey t.object_boxes id) = keysOf (eraseKey t.objects id)
    rw [keysOf_eraseKey, keysOf_eraseKey, hwf.2.2.1]

/-- Witness for C10: the key sets agree on a concrete two-object tracker
through a registration, a deregistration, and a general update. -/
theorem maps_share_keys_witness :
    twoObjTracker.WF ∧
    ((keysOf (twoObjTracker.register (5, 5) boxA).disappeared =
        keysOf (twoObjTracker.register (5, 5) boxA).objects ∧
      keysOf (twoObjTracker.register (5, 5) boxA).object_boxes =
        keysOf (twoObjTracker.register (5, 5) boxA).objects) ∧
    (keysOf (twoObjTracker.deregister 0).disappeared =
        keysOf (twoObjTracker.deregister 0).objects ∧
      keysOf (twoObjTracker.deregister 0).object_boxes =
        keysOf (twoObjTracker.deregister 0).objects) ∧
    (keysOf (twoObjTracker.update [boxA2]).disappeared =
        keysOf (twoObjTracker.update [boxA2]).objects ∧
      keysOf (twoObjTracker.update [boxA2]).object_boxes =
        keysOf (twoObjTracker.update [boxA2]).objects)) :=
  ⟨by decide, maps_share_keys twoObjTracker (5, 5) boxA 0 [boxA2] (by decide)⟩

/-- C8: for every box, including malformed ones with negative or reversed
coordinates, the centroid is the half-sum of opposite corners truncated
toward zero, and exactly this truncated centroid is what `update` stores
(here shown for every registration run from a fresh tracker). -/
theorem centroid_trunc_toward_zero :
    (∀ x1 y1 x2 y2 : Int, centroid ⟨x1, y1, x2, y2⟩ =
      (truncHalfTowardZero (x1 + x2), truncHalfTowardZero (y1 + y2))) ∧
    (∀ (m : Nat) (dets : List Box),
      ((CentroidTracker.init m).update dets).objects =
        List.enumFrom 0 (dets.map centroid)) := by
  constructor
  · intro x1 y1 x2 y2
    rw [centroid, tdiv_two_eq_truncHalf, tdiv_two_eq_truncHalf]
  · intro m dets
    by_cases hdet : dets = []
    · subst hdet
      rfl
    · exact (register_branch_closed (CentroidTracker.init m) dets
        (WF_init m) rfl hdet).1

/-- C1: the general matching case builds the full distance matrix, sorts
rows ascending by row minimum, pairs each sorted row with the argmin over
its full row, consumes pairs greedily in that order skipping used rows and
columns, and each consumed pair overwrites the object's centroid and box
with the matched detection's values and resets its count to 0. -/
theorem general_matching (t : CentroidTracker) (dets : List Box)
    (hwf : t.WF) (hobj : t.objects ≠ []) (hdet : dets ≠ []) :
    generalMatchSpec t dets := by
  refine ⟨Dmat_length t dets, ?_, ?_, ?_, ?_, ?_,
    greedyPairs_sublist _ _ _,
    (greedyPairs_fst_nodup _ [] []).1,
    (greedyPairs_snd_nodup _ [] []).1, ?_, ?_⟩
  · intro row hrow
    rw [CentroidTracker.Dmat] at hrow
    rw [distMatrix_row_length hrow, List.length_map]
  · intro i hi j hj
    rw [CentroidTracker.Dmat]
    exact distMatrix_entry (by rw [List.length_map]; exact hi)
      (by rw [List.length_map]; exact hj)
  · rw [CentroidTracker.candidatePairs, matchPairs_map_fst]
    have hp := argsortKeys_perm ((t.Dmat dets).map listMin)
    rw [List.length_map] at hp
    exact hp
  · rw [CentroidTracker.candidatePairs, matchPairs_map_fst]
    refine (argsortKeys_sorted ((t.Dmat dets).map listMin)).imp_of_mem ?_
    intro a b ha hb hab
    have ha2 : a < (t.Dmat dets).length := by
      have h := mem_argsortKeys.mp ha
      rw [List.length_map] at h
      exact h
    have hb2 : b < (t.Dmat dets).length := by
      have h := mem_argsortKeys.mp hb
      rw [List.length_map] at h
      exact h
    rw [getD_map_listMin ha2, getD_map_listMin hb2] at hab
    exact hab
  · intro p hp
    obtain ⟨h1, h2⟩ := mem_matchPairs hp
    have hrowlen : ((t.Dmat dets).getD p.1 []).length = dets.length := by
      rw [CentroidTracker.Dmat]
      have hmem : (distMatrix (t.objects.map Prod.snd)
            (dets.map centroid)).getD p.1 [] ∈
          distMatrix (t.objects.map Prod.snd) (dets.map centroid) :=
        getD_mem_of_lt h1 []
      rw [distMatrix_row_length hmem, List.length_map]
    have hne : (t.Dmat dets).getD p.1 [] ≠ [] := by
      intro he
      rw [he] at hrowlen
      exact hdet (List.length_eq_zero.mp hrowlen.symm)
    obtain ⟨x, xs, hxe⟩ := List.exists_cons_of_ne_nil hne
    obtain ⟨ha1, ha2⟩ := argminList_spec x xs
    refine ⟨h2, ?_, ?_⟩
    · rw [h2, hxe]
      rw [hxe] at hrowlen
      rw [← hrowlen]
      exact ha1
    · rw [h2, hxe]
      exact ha2
  · intro p hp
    rcases greedyPairs_covers _ [] [] p hp with h | h | h | h | h
    · exact Or.inl h
    · exact Or.inr (Or.inl h)
    · exact absurd h (List.not_mem_nil _)
    · exact Or.inr (Or.inr h)
    · exact absurd h (List.not_mem_nil _)
  · intro p hp
    exact matched_lookup hwf hobj hdet hp

/-- Witness for C1: a two-object tracker matched against two shifted
detections given in swapped order. -/
theorem general_matching_witness :
    twoObjTracker.WF ∧ twoObjTracker.objects ≠ [] ∧
    ([boxB2, boxA2] : List Box) ≠ [] ∧
    generalMatchSpec twoObjTracker [boxB2, boxA2] :=
  ⟨by decide, by decide, by decide,
   general_matching twoObjTracker [boxB2, boxA2] (by decide) (by decide)
     (by decide)⟩

end ICT4GS
